import Mathlib

/-!
Shallow embedding of the BIMCV-COVID-19 interface pipeline
(src/bimcvcovid19i) in Lean 4, used to settle the frozen claims about
the natural-language specification of the repository.

Conventions of the embedding:
* Python strings are modeled as lists of characters (PyStr).
* Python numbers occurring in images and spacings are modeled as exact
  rationals; the claims settled here do not hinge on binary rounding of
  intermediate arithmetic, except for the dtype-casting model, which
  defines the IEEE-style roundings explicitly on rationals.
* Python exceptions are modeled with Except over the enumeration PyErr.
* numpy 3-D arrays are nested lists; slicing and face extraction are the
  corresponding list operations, and indexing an empty axis is IndexErr.
-/

abbrev PyStr := List Char

/-- A Python string literal. Kept as a wrapper so that rewriting does
not unfold character lists eagerly. -/
def lit (s : String) : PyStr := s.toList

/-- Python exception kinds raised by the modeled code paths. -/
inductive PyErr where
  | indexErr
  | keyErr
  | valueErr
  | assertionErr
  | attributeErr
  | notImplementedErr
  deriving DecidableEq, Repr

/-- Universe of Python values handled by the tag-parsing and
spacing-derivation code in src/bimcvcovid19i/tools.py: None, strings,
numbers, lists and (insertion-ordered) dicts. -/
inductive PyVal where
  | vNone
  | vStr (s : PyStr)
  | vNum (q : ℚ)
  | vList (xs : List PyVal)
  | vDict (fs : List (PyStr × PyVal))

/-- Lookup in a Python dict modeled as an association list (genuine
dicts have unique keys; the first binding is returned). -/
def dict_lookup (fs : List (PyStr × PyVal)) (k : PyStr) : Option PyVal :=
  (fs.find? (fun p => p.1 == k)).map (fun p => p.2)

/-- Python dict assignment d[k] = v on an insertion-ordered association
list: replaces the value at an existing key in place, else appends. -/
def assoc_assign {β : Type} (fs : List (PyStr × β)) (k : PyStr) (v : β) :
    List (PyStr × β) :=
  match fs with
  | [] => [(k, v)]
  | (k0, v0) :: rest =>
    if k0 == k then (k0, v) :: rest else (k0, v0) :: assoc_assign rest k v

/-- Python substring test (pat in s). -/
def py_contains (pat : PyStr) : PyStr → Bool
  | [] => pat.isEmpty
  | c :: rest => pat.isPrefixOf (c :: rest) || py_contains pat rest

/-- Python str.lower restricted to the ASCII data handled here. -/
def py_lower (s : PyStr) : PyStr := s.map Char.toLower

/-- Python "a/b/c".split on the slash character; always nonempty. -/
def split_slash : PyStr → List PyStr
  | [] => [[]]
  | c :: rest =>
    match split_slash rest with
    | [] => [[c]]
    | h :: t => if c = '/' then [] :: h :: t else (c :: h) :: t

/-- pathlib Path(p).name: the last slash-separated component. -/
def path_name (p : PyStr) : PyStr := (split_slash p).getLastD []

-- ===========================================================
-- tools.py: spacing_from_tags
-- ===========================================================

/-- tools.spacing_from_tags. Returns the PixelSpacing tag value for
modalities cr and dx (case-insensitive), None when the input is None,
not a dict, or lacks PixelSpacing or Modality, and raises
NotImplementedError for modality ct and for every other modality.
Calling lower() on a non-string Modality is an AttributeError. -/
def spacing_from_tags (tags : PyVal) : Except PyErr PyVal :=
  match tags with
  | .vNone => .ok .vNone
  | .vDict fs =>
    match dict_lookup fs (lit "PixelSpacing") with
    | none => .ok .vNone
    | some spacing =>
      match dict_lookup fs (lit "Modality") with
      | none => .ok .vNone
      | some (.vStr m) =>
        if py_lower m == (lit "cr") || py_lower m == (lit "dx") then .ok spacing
        else .error .notImplementedErr
      | some _ => .error .attributeErr
  | _ => .ok .vNone

-- ===========================================================
-- tools.py: parse_dicom_tags
-- ===========================================================

/-- Helper for parse_tag_fields below: Python fills the result dict in
iteration order, later assignments to the same keyword overwriting the
value while keeping the first position; since the recursion combines
the head binding with the already-built dict of the tail, an existing
later binding supplies the value and the head supplies the position. -/
def dict_assign_front (k : PyStr) (v : PyVal) (rest : List (PyStr × PyVal)) :
    List (PyStr × PyVal) :=
  match dict_lookup rest k with
  | some v2 => (k, v2) :: rest.filter (fun p => !(p.1 == k))
  | none => (k, v) :: rest

/-- The check set(tags.keys()) == set(["Value", "vr"]) for a two-entry dict. -/
def keys_are_value_vr (k1 k2 : PyStr) : Bool :=
  (k1 == (lit "Value") && k2 == (lit "vr")) ||
  (k1 == (lit "vr") && k2 == (lit "Value"))

mutual

/-- tools.parse_dicom_tags. Collapses the DICOM-JSON encoding:
a non-dict is returned unchanged; a single-entry dict collapses to None
when its key is vr and otherwise to the collapse of its sole value; a
dict with exactly the keys Value and vr collapses to the collapsed list
under Value (None if empty, the sole element if a singleton, the list
otherwise; a non-list Value is an AssertionError); any other dict maps
each key through the tag-keyword resolver (falling back to the raw key)
to the collapse of its value. The resolver argument models the pydicom
keyword_for_tag collaborator; None models a ValueError fallback. -/
def parse_dicom_tags (resolve : PyStr → Option PyStr) : PyVal → Except PyErr PyVal
  | .vDict [(k, v)] =>
    if k == (lit "vr") then .ok .vNone else parse_dicom_tags resolve v
  | .vDict [(k1, v1), (k2, v2)] =>
    if keys_are_value_vr k1 k2 then
      if k1 == (lit "Value") then parse_dicom_value resolve v1
      else parse_dicom_value resolve v2
    else do
      let fs2 ← parse_tag_fields resolve [(k1, v1), (k2, v2)]
      .ok (.vDict fs2)
  | .vDict fs => do
    let fs2 ← parse_tag_fields resolve fs
    .ok (.vDict fs2)
  | t => .ok t

/-- The Value-and-vr branch of parse_dicom_tags applied to the value
bound under the Value key: it must be a list (else AssertionError) and
collapses to None, the sole element, or the collapsed list. -/
def parse_dicom_value (resolve : PyStr → Option PyStr) : PyVal → Except PyErr PyVal
  | .vList xs => do
    let result ← parse_tag_list resolve xs
    match result with
    | [] => .ok .vNone
    | [x] => .ok x
    | _ => .ok (.vList result)
  | _ => .error .assertionErr

/-- The recursive collapse of the elements of a Value list. -/
def parse_tag_list (resolve : PyStr → Option PyStr) :
    List PyVal → Except PyErr (List PyVal)
  | [] => .ok []
  | v :: rest => do
    let v2 ← parse_dicom_tags resolve v
    let rest2 ← parse_tag_list resolve rest
    .ok (v2 :: rest2)

/-- The general branch of parse_dicom_tags: each key is resolved to a
keyword (or kept raw) and bound to the collapse of its value, with dict
assignment semantics. -/
def parse_tag_fields (resolve : PyStr → Option PyStr) :
    List (PyStr × PyVal) → Except PyErr (List (PyStr × PyVal))
  | [] => .ok []
  | (k, v) :: rest => do
    let v2 ← parse_dicom_tags resolve v
    let rest2 ← parse_tag_fields resolve rest
    .ok (dict_assign_front (resolve k |>.getD k) v2 rest2)

end

-- ===========================================================
-- postprocessing.py: rotation transforms
-- ===========================================================

/-- numpy 3-D array (postprocessing.Image with three axes). -/
abbrev Image3 := List (List (List ℚ))

/-- One 2-D face of a 3-D array. -/
abbrev Face2 := List (List ℚ)

/-- postprocessing.Spacing: a tuple of floats. -/
abbrev SpacingT := List ℚ

/-- np.rot90(m, 1) on the leading two axes: the first axis of the
result runs over the reversed second axis of the input. -/
def np_rot90 {a : Type} (m : List (List a)) : List (List a) :=
  (List.transpose m).reverse

/-- Reversal of the last axis of a 3-D array (the [..., ::-1] slice). -/
def rev_last (v : Image3) : Image3 :=
  v.map (fun plane => plane.map List.reverse)

/-- postprocessing.Transform: a pair of pure functions on image and
spacing; the base class is the identity on both. -/
structure Transform where
  transform_image : Image3 → Image3 := id
  transform_spacing : SpacingT → SpacingT := id

/-- Transform.__call__ applies both components. -/
def Transform.call (t : Transform) (image : Image3) (spacing : SpacingT) :
    Image3 × SpacingT :=
  (t.transform_image image, t.transform_spacing spacing)

/-- RotateCTTransformType0: inherits both identity methods. -/
def RotateCTTransformType0 : Transform := {}

/-- RotateCTTransformType1: np.rot90(np.rot90(image, 1, (1, 2)), 1)[..., ::-1]
and spacing (s2, s0, s1). Out-of-range spacing indices, an IndexError in
Python, are modeled with a zero default; no claim exercises them. -/
def RotateCTTransformType1 : Transform where
  transform_image := fun image => rev_last (np_rot90 (image.map np_rot90))
  transform_spacing := fun s => [s.getD 2 0, s.getD 0 0, s.getD 1 0]

/-- RotateCTTransformType2: np.rot90(image, 1, (1, 2))[..., ::-1] and
spacing (s0, s2, s1). -/
def RotateCTTransformType2 : Transform where
  transform_image := fun image => rev_last (image.map np_rot90)
  transform_spacing := fun s => [s.getD 0 0, s.getD 2 0, s.getD 1 0]

/-- RotateCTTransformType3: np.rot90(image, 1, (0, 1))[..., ::-1] and
spacing (s1, s0, s2). -/
def RotateCTTransformType3 : Transform where
  transform_image := fun image => rev_last (np_rot90 image)
  transform_spacing := fun s => [s.getD 1 0, s.getD 0 0, s.getD 2 0]

/-- RotateCTTransformType4: np.rot90(image, 1, (1, 2))[..., ::-1, ::-1]
and spacing (s0, s2, s1). -/
def RotateCTTransformType4 : Transform where
  transform_image := fun image =>
    (image.map np_rot90).map (fun plane => plane.reverse.map List.reverse)
  transform_spacing := fun s => [s.getD 0 0, s.getD 2 0, s.getD 1 0]

/-- RotateCTTransformType5: np.rot90(image, 1, (0, 1)) and spacing
(s1, s0, s2). -/
def RotateCTTransformType5 : Transform where
  transform_image := fun image => np_rot90 image
  transform_spacing := fun s => [s.getD 1 0, s.getD 0 0, s.getD 2 0]

/-- The dict literal inside get_rotate_ct_transform. -/
def rotate_transform_table : List (PyStr × Transform) :=
  [((lit "type_0"), RotateCTTransformType0),
   ((lit "type_1"), RotateCTTransformType1),
   ((lit "type_2"), RotateCTTransformType2),
   ((lit "type_3"), RotateCTTransformType3),
   ((lit "type_4"), RotateCTTransformType4),
   ((lit "type_5"), RotateCTTransformType5)]

/-- postprocessing.get_rotate_ct_transform: dict lookup by the variant
name; an unknown name is a KeyError, modeled as none. -/
def get_rotate_ct_transform (transform_type : PyStr) : Option Transform :=
  (rotate_transform_table.find? (fun p => p.1 == transform_type)).map (fun p => p.2)

/-- postprocessing.rotate_ct_transform. -/
def rotate_ct_transform (image : Image3) (spacing : SpacingT)
    (transform_type : PyStr) : Option (Image3 × SpacingT) :=
  (get_rotate_ct_transform transform_type).map (fun t => t.call image spacing)

-- ===========================================================
-- postprocessing.py: border trimming
-- ===========================================================

/-- image[0] of a 3-D array: IndexError (none) when axis 0 is empty. -/
def face_a0_min (v : Image3) : Option Face2 := v.head?

/-- image[-1]. -/
def face_a0_max (v : Image3) : Option Face2 := v.getLast?

/-- image[:, 0, :]: IndexError when axis 1 is empty. -/
def face_a1_min (v : Image3) : Option Face2 := v.mapM List.head?

/-- image[:, -1, :]. -/
def face_a1_max (v : Image3) : Option Face2 := v.mapM List.getLast?

/-- image[:, :, 0]: IndexError when axis 2 is empty. -/
def face_a2_min (v : Image3) : Option Face2 :=
  v.mapM (fun plane => plane.mapM List.head?)

/-- image[:, :, -1]. -/
def face_a2_max (v : Image3) : Option Face2 :=
  v.mapM (fun plane => plane.mapM List.getLast?)

/-- image[1:, :, :]. -/
def trim_a0_min (v : Image3) : Image3 := v.tail

/-- image[:-1, :, :]. -/
def trim_a0_max (v : Image3) : Image3 := v.dropLast

/-- image[:, 1:, :]. -/
def trim_a1_min (v : Image3) : Image3 := v.map List.tail

/-- image[:, :-1, :]. -/
def trim_a1_max (v : Image3) : Image3 := v.map List.dropLast

/-- image[:, :, 1:]. -/
def trim_a2_min (v : Image3) : Image3 := v.map (fun plane => plane.map List.tail)

/-- image[:, :, :-1]. -/
def trim_a2_max (v : Image3) : Image3 := v.map (fun plane => plane.map List.dropLast)

/-- One pass of the for-loop over edge_idxs inside _clean_3dimage: the
six faces are inspected in the fixed source order; the first face that
satisfies filter_fn yields the correspondingly trimmed volume (some),
no qualifying face ends the loop (none), and extracting a face of an
empty axis is an IndexError. -/
def clean_scan (filter_fn : Face2 → Bool) (image : Image3) :
    Except PyErr (Option Image3) :=
  match face_a0_min image with
  | none => .error .indexErr
  | some f1 =>
  if filter_fn f1 then .ok (some (trim_a0_min image)) else
  match face_a0_max image with
  | none => .error .indexErr
  | some f2 =>
  if filter_fn f2 then .ok (some (trim_a0_max image)) else
  match face_a1_min image with
  | none => .error .indexErr
  | some f3 =>
  if filter_fn f3 then .ok (some (trim_a1_min image)) else
  match face_a1_max image with
  | none => .error .indexErr
  | some f4 =>
  if filter_fn f4 then .ok (some (trim_a1_max image)) else
  match face_a2_min image with
  | none => .error .indexErr
  | some f5 =>
  if filter_fn f5 then .ok (some (trim_a2_min image)) else
  match face_a2_max image with
  | none => .error .indexErr
  | some f6 =>
  if filter_fn f6 then .ok (some (trim_a2_max image)) else
  .ok none

/-- Size measure of a 3-D nested list: every trim taken by clean_scan
strictly decreases it, which bounds the number of loop iterations. -/
def vol_measure (v : Image3) : Nat :=
  v.length + (v.map List.length).sum
    + (v.map (fun plane => (plane.map List.length).sum)).sum

/-- The while-True loop of _clean_3dimage, run with explicit fuel: none
models fuel exhaustion and is proved unreachable for fuel
vol_measure v + 1 (see the termination theorem for claim C2). -/
def clean_3dimage_fuel (fuel : Nat) (filter_fn : Face2 → Bool) (image : Image3) :
    Option (Except PyErr Image3) :=
  match fuel with
  | 0 => none
  | fuel2 + 1 =>
    match clean_scan filter_fn image with
    | .error e => some (.error e)
    | .ok none => some (.ok image)
    | .ok (some image2) => clean_3dimage_fuel fuel2 filter_fn image2

/-- postprocessing._clean_3dimage: the loop with sufficient fuel. -/
def clean_3dimage (filter_fn : Face2 → Bool) (image : Image3) :
    Except PyErr Image3 :=
  (clean_3dimage_fuel (vol_measure image + 1) filter_fn image).getD (.ok image)

-- ===========================================================
-- postprocessing.py: face filters
-- ===========================================================

/-- postprocessing._blank_filter: len(np.unique(image)) == 1 on the
flattened face. -/
def blank_filter (image : Face2) : Bool :=
  (image.flatten.dedup).length == 1

/-- Insertion into a sorted list of rationals. -/
def rinsert (x : ℚ) : List ℚ → List ℚ
  | [] => [x]
  | y :: ys => if x ≤ y then x :: y :: ys else y :: rinsert x ys

/-- Sorted copy of a list of rationals (np.quantile sorts internally). -/
def rsorted : List ℚ → List ℚ
  | [] => []
  | x :: xs => rinsert x (rsorted xs)

/-- np.quantile with the default linear interpolation on a nonempty
flattened sample. -/
def np_quantile (xs : List ℚ) (q : ℚ) : ℚ :=
  let s := rsorted xs
  let n := s.length
  let h : ℚ := q * ((n : ℚ) - 1)
  let lo : Nat := (⌊h⌋).toNat
  let a := s.getD lo 0
  let b := s.getD (lo + 1) a
  a + (h - (lo : ℚ)) * (b - a)

/-- Arithmetic mean (nonempty inputs only on the modeled paths). -/
def np_mean (xs : List ℚ) : ℚ := xs.sum / (xs.length : ℚ)

/-- scipy reflect boundary mode: index j of a length-n signal folded
into range by reflection about the array edges (edge value repeated). -/
def reflect_index (n : Nat) (j : Int) : Nat :=
  let r := (j % (2 * (n : Int))).toNat
  if r < n then r else 2 * n - 1 - r

/-- The window of a size-10 scipy filter centered at position i with
the default origin: offsets -5 to 4, reflect boundary mode. -/
def filter_window (vec : List ℚ) (i : Nat) : List ℚ :=
  (List.range 10).map
    (fun t => vec.getD (reflect_index vec.length ((i : Int) + (t : Int) - 5)) 0)

/-- scipy.ndimage.minimum_filter with size 10 on a 1-D signal. -/
def minimum_filter (vec : List ℚ) : List ℚ :=
  (List.range vec.length).map (fun i => ((filter_window vec i).min?).getD 0)

/-- scipy.ndimage.maximum_filter with size 10 on a 1-D signal. -/
def maximum_filter (vec : List ℚ) : List ℚ :=
  (List.range vec.length).map (fun i => ((filter_window vec i).max?).getD 0)

/-- image.mean(0): per-column means of a rectangular 2-D face. -/
def col_means (im : Face2) : List ℚ := (List.transpose im).map np_mean

/-- image.mean(1): per-row means. -/
def row_means (im : Face2) : List ℚ := im.map np_mean

/-- postprocessing._estimate_regularity with the default window k = 10.
The contextlib.suppress(Exception) wrapper returns 0.0 both for the
explicit raise when the percentile range is non-positive and for the
np.quantile failure on an empty face, which the emptiness guard models. -/
def estimate_regularity (image : Face2) : ℚ :=
  let flat := image.flatten
  if flat.isEmpty then 0
  else
    let min_ := np_quantile flat (3 / 100)
    let max_ := np_quantile flat (97 / 100)
    if max_ - min_ ≤ 0 then 0
    else
      let one := (col_means image).map (fun x => (x - min_) / (max_ - min_))
      let two := (row_means image).map (fun x => (x - min_) / (max_ - min_))
      let minimum := minimum_filter one ++ minimum_filter two
      let maximum := maximum_filter one ++ maximum_filter two
      np_mean (List.zipWith (fun a b => a - b) maximum minimum)

/-- postprocessing._regularity_filter: regularity above the 0.1
threshold. -/
def regularity_filter (image : Face2) : Bool :=
  decide (estimate_regularity image > 1 / 10)

/-- postprocessing._blank_and_regularity_filter (short-circuit or). -/
def blank_and_regularity_filter (image : Face2) : Bool :=
  blank_filter image || regularity_filter image

/-- postprocessing.clean_ct_image. -/
def clean_ct_image (image : Image3) : Except PyErr Image3 :=
  clean_3dimage blank_and_regularity_filter image

/-- postprocessing.process_ct_image, parameterized by the
identifier-to-variant asset table (an external collaborator, modeled as
a function; .get returns none when absent, and a falsy empty string
also skips the rotation). -/
def process_ct_image (rmap : PyStr → Option PyStr) (series_id : PyStr)
    (image : Image3) (spacing : SpacingT) : Except PyErr (Image3 × SpacingT) := do
  if !((lit "ct").isSuffixOf series_id) then .error .valueErr
  else
    let p1 ←
      match rmap series_id with
      | some tt =>
        if tt.isEmpty then pure (image, spacing)
        else
          match rotate_ct_transform image spacing tt with
          | some r => pure r
          | none => Except.error .keyErr
      | none => pure (image, spacing)
    let image2 ← clean_ct_image p1.1
    pure (image2, p1.2)

-- ===========================================================
-- data.py: BIMCVCOVID19Data.sessions_iter
-- ===========================================================

/-- A tar archive member. The slash-separated member name is modeled as
its list of path segments (the source only ever splits the name on the
slash and compares prefixes of whole session-root paths); isdir models
member.isdir(), and a member is a file iff it is not a directory on the
modeled inputs. -/
structure TarMember where
  name : List PyStr
  isdir : Bool

/-- The first pass of sessions_iter over the members of one shard:
directory members whose last segment starts with ses- and whose
second-to-last segment starts with sub- register a session root keyed
by the session id (dict assignment: last registration wins, first
position kept). A matching member that is not a directory fails the
assert; a one-segment name reaching the [-2] access is an IndexError. -/
def find_session_roots_go (acc : List (PyStr × List PyStr)) :
    List TarMember → Except PyErr (List (PyStr × List PyStr))
  | [] => .ok acc
  | m :: rest =>
    match m.name.getLast? with
    | none => find_session_roots_go acc rest
    | some last =>
      if (lit "ses-").isPrefixOf last then
        match m.name.dropLast.getLast? with
        | none => .error .indexErr
        | some par =>
          if (lit "sub-").isPrefixOf par then
            if m.isdir then find_session_roots_go (assoc_assign acc last m.name) rest
            else .error .assertionErr
          else find_session_roots_go acc rest
      else find_session_roots_go acc rest

/-- See find_session_roots_go: the accumulator starts empty. -/
def find_session_roots (members : List TarMember) :
    Except PyErr (List (PyStr × List PyStr)) :=
  find_session_roots_go [] members

/-- Appends a file path to the bucket of a session id inside the
per-session path table, leaving other buckets unchanged. -/
def bucket_append (elements : List (PyStr × List (List PyStr))) (uid : PyStr)
    (p : List PyStr) : List (PyStr × List (List PyStr)) :=
  elements.map (fun e => if e.1 == uid then (e.1, e.2 ++ [p]) else e)

/-- The second pass of sessions_iter: every file member is assigned to
the first session root (in registration order) whose path is a prefix
of the member path; members matching no root are reported and dropped. -/
def distribute_members (roots : List (PyStr × List PyStr)) :
    List TarMember → List (PyStr × List (List PyStr)) → List (PyStr × List (List PyStr))
  | [], elements => elements
  | m :: rest, elements =>
    if m.isdir then distribute_members roots rest elements
    else
      match roots.find? (fun r => r.2.isPrefixOf m.name) with
      | some r => distribute_members roots rest (bucket_append elements r.1 m.name)
      | none => distribute_members roots rest elements

/-- The extraction loop of sessions_iter for one shard: each session is
materialized as the list of its member paths made relative to the
session root, and yielded in registration order. -/
def shard_sessions (members : List TarMember) : List (PyStr × List (List PyStr)) :=
  match find_session_roots members with
  | .error _ => []
  | .ok roots =>
    let elements := distribute_members roots members (roots.map (fun r => (r.1, [])))
    elements.map (fun e =>
      let root := ((roots.find? (fun r => r.1 == e.1)).map (fun r => r.2)).getD []
      (e.1, e.2.map (fun p => p.drop root.length)))

/-- data.BIMCVCOVID19Data.sessions_iter: shards are processed in
filename order (the sorted glob is modeled by the input order); a shard
whose processing raises is caught, printed and skipped, and each
session found in a shard is yielded as a SessionSubtree holding that
shard members of the session, with root-relative paths. -/
def sessions_iter (shards : List (List TarMember)) :
    List (PyStr × List (List PyStr)) :=
  (shards.map shard_sessions).flatten

-- ===========================================================
-- data.py: _group_series_files_by_name
-- ===========================================================

/-- One entry of the recursive session-subtree listing, with the path
relative to the session root (rglob yields paths under the root, and
the source only uses suffixes, the last path component, and the
position relative to the session root). -/
structure FSEntry where
  path : PyStr
  isdir : Bool

/-- The known suffixes, in the source order. -/
def series_extensions : List PyStr :=
  [(lit ".json"), (lit ".tsv"), (lit ".nii.gz"), (lit ".png")]

/-- The first known suffix matching a path, with the stripped group
key; none models the failed assert (an unrecognized extension). -/
def strip_extension (p : PyStr) : Option PyStr :=
  (series_extensions.find? (fun ext => ext.isSuffixOf p)).map
    (fun ext => p.take (p.length - ext.length))

/-- The grouping loop: non-directory entries are asserted to match a
known suffix and appended (in traversal order) to the bucket of their
stripped key; buckets appear in first-occurrence order. -/
def build_groups (acc : List (PyStr × List PyStr)) :
    List FSEntry → Except PyErr (List (PyStr × List PyStr))
  | [] => .ok acc
  | e :: rest =>
    if e.isdir then build_groups acc rest
    else
      match strip_extension e.path with
      | none => .error .assertionErr
      | some key =>
        match acc.find? (fun g => g.1 == key) with
        | some _ =>
          build_groups (acc.map (fun g => if g.1 == key then (g.1, g.2 ++ [e.path]) else g)) rest
        | none => build_groups (acc ++ [(key, [e.path])]) rest

/-- The whole-session scan-manifest test for a singleton group: the
file ends with _scans.tsv, sits directly under the session root, and
its name contains both sub- and _ses-. -/
def manifest_check (p : PyStr) : Bool :=
  (lit "_scans.tsv").isSuffixOf p
    && ((split_slash p).length == 1)
    && py_contains (lit "sub-") (path_name p)
    && py_contains (lit "_ses-") (path_name p)

/-- data.SeriesRawPath (the descriptor fields used by the grouper). -/
structure SeriesRawPath where
  uid : PyStr
  image_path : Option PyStr
  tags_path : Option PyStr
  deriving DecidableEq, Repr

/-- The classification loop over one group: a .json member becomes the
tag path, any other member becomes the image path (a later non-JSON
member overwrites an earlier one). -/
def assign_group_paths (group : List PyStr) : Option PyStr × Option PyStr :=
  group.foldl
    (fun acc p =>
      if (lit ".json").isSuffixOf p then (acc.1, some p) else (some p, acc.2))
    (none, none)

/-- The per-group tail of _group_series_files_by_name: singleton
scan-manifest groups and groups of more than two files are skipped
(none); every other group yields a SeriesRawPath whose uid is the last
path component of the group key. -/
def emit_group (group_name : PyStr) (group : List PyStr) : Option SeriesRawPath :=
  if group.length == 1 && manifest_check (group.headD []) then none
  else if group.length > 2 then none
  else
    some { uid := path_name group_name
           image_path := (assign_group_paths group).1
           tags_path := (assign_group_paths group).2 }

/-- data._group_series_files_by_name over the recursive listing of one
session subtree. -/
def group_series_files_by_name (entries : List FSEntry) :
    Except PyErr (List SeriesRawPath) := do
  let groups ← build_groups [] entries
  .ok (groups.filterMap (fun g => emit_group g.1 g.2))

-- ===========================================================
-- tools.py: down_type (numpy dtype model)
-- ===========================================================

/-- A numpy scalar: a finite value (exact rational), an infinity, or
nan. Signed zeros are identified; no claim distinguishes them. -/
inductive NpVal where
  | fin (q : ℚ)
  | inf
  | ninf
  | nan
  deriving DecidableEq, Repr

/-- The numpy element types modeled here: the integer and floating
families that the image decoders and the down_type candidates touch. -/
inductive NpType where
  | int8 | uint8 | int16 | uint16 | int32 | uint32 | int64 | uint64
  | float16 | float32 | float64
  deriving DecidableEq, Repr

/-- Truncation toward zero (the C-style float-to-int conversion). -/
def qtrunc (q : ℚ) : ℤ := if 0 ≤ q then ⌊q⌋ else -⌊-q⌋

/-- Round to nearest integer, ties to even. -/
def rne (q : ℚ) : ℤ :=
  if q - ⌊q⌋ < 1 / 2 then ⌊q⌋
  else if 1 / 2 < q - ⌊q⌋ then ⌊q⌋ + 1
  else if ⌊q⌋ % 2 = 0 then ⌊q⌋ else ⌊q⌋ + 1

/-- Conversion to an integer type of the given lower bound and modulus:
truncation toward zero followed by the two-complement wraparound.
Conversion of non-finite values to integers is platform-dependent in
numpy and never observed by a passing equality guard; it is modeled as
zero. -/
def cast_int (lo modl : ℤ) (v : NpVal) : NpVal :=
  match v with
  | .fin q => .fin (((qtrunc q - lo) % modl + lo : ℤ) : ℚ)
  | _ => .fin 0

/-- Conversion to a binary floating type of precision p, minimum
exponent emin and largest finite value maxfin: round to nearest even at
the ulp scale, overflowing to the infinities. -/
def cast_float (p : ℕ) (emin : ℤ) (maxfin : ℚ) (v : NpVal) : NpVal :=
  match v with
  | .fin q =>
    let e := Int.log 2 |q|
    let g : ℤ := max emin (e - (p : ℤ) + 1)
    let r : ℚ := ((rne (q / 2 ^ g) : ℤ) : ℚ) * 2 ^ g
    if maxfin < r then .inf else if r < -maxfin then .ninf else .fin r
  | .inf => .inf
  | .ninf => .ninf
  | .nan => .nan

/-- numpy astype on one scalar. -/
def np_cast (t : NpType) (v : NpVal) : NpVal :=
  match t with
  | .int8 => cast_int (-(2 ^ 7)) (2 ^ 8) v
  | .uint8 => cast_int 0 (2 ^ 8) v
  | .int16 => cast_int (-(2 ^ 15)) (2 ^ 16) v
  | .uint16 => cast_int 0 (2 ^ 16) v
  | .int32 => cast_int (-(2 ^ 31)) (2 ^ 32) v
  | .uint32 => cast_int 0 (2 ^ 32) v
  | .int64 => cast_int (-(2 ^ 63)) (2 ^ 64) v
  | .uint64 => cast_int 0 (2 ^ 64) v
  | .float16 => cast_float 11 (-24) 65504 v
  | .float32 => cast_float 24 (-149) ((2 ^ 24 - 1) * 2 ^ 104) v
  | .float64 => cast_float 53 (-1074) ((2 ^ 53 - 1) * 2 ^ 971) v

/-- The values representable in an integer type. -/
def int_repr (lo hi : ℤ) (v : NpVal) : Prop :=
  ∃ n : ℤ, v = .fin ((n : ℚ)) ∧ lo ≤ n ∧ n ≤ hi

/-- The values representable in a floating type: finite values are
m times 2 to the g with a p-bit mantissa, exponent at least emin and
magnitude at most maxfin; infinities and nan are representable. -/
def float_repr (p : ℕ) (emin : ℤ) (maxfin : ℚ) (v : NpVal) : Prop :=
  match v with
  | .fin q =>
    (∃ m g : ℤ, q = (m : ℚ) * 2 ^ g ∧ |m| < 2 ^ p ∧ emin ≤ g) ∧ |q| ≤ maxfin
  | _ => True

/-- The values an array of the given dtype can hold. -/
def np_repr (t : NpType) (v : NpVal) : Prop :=
  match t with
  | .int8 => int_repr (-(2 ^ 7)) (2 ^ 7 - 1) v
  | .uint8 => int_repr 0 (2 ^ 8 - 1) v
  | .int16 => int_repr (-(2 ^ 15)) (2 ^ 15 - 1) v
  | .uint16 => int_repr 0 (2 ^ 16 - 1) v
  | .int32 => int_repr (-(2 ^ 31)) (2 ^ 31 - 1) v
  | .uint32 => int_repr 0 (2 ^ 32 - 1) v
  | .int64 => int_repr (-(2 ^ 63)) (2 ^ 63 - 1) v
  | .uint64 => int_repr 0 (2 ^ 64 - 1) v
  | .float16 => float_repr 11 (-24) 65504 v
  | .float32 => float_repr 24 (-149) ((2 ^ 24 - 1) * 2 ^ 104) v
  | .float64 => float_repr 53 (-1074) ((2 ^ 53 - 1) * 2 ^ 971) v

/-- The numpy promotion table restricted to the pairs exercised by
down_type: the dtype of the array against each candidate dtype of the
comparison data == data.astype(candidate). -/
def np_promote (t s : NpType) : NpType :=
  match s with
  | .int8 =>
    match t with
    | .int8 => .int8 | .uint8 => .int16 | .int16 => .int16 | .uint16 => .int32
    | .int32 => .int32 | .uint32 => .int64 | .int64 => .int64 | .uint64 => .float64
    | .float16 => .float16 | .float32 => .float32 | .float64 => .float64
  | .uint8 =>
    match t with
    | .int8 => .int16 | .uint8 => .uint8 | .int16 => .int16 | .uint16 => .uint16
    | .int32 => .int32 | .uint32 => .uint32 | .int64 => .int64 | .uint64 => .uint64
    | .float16 => .float16 | .float32 => .float32 | .float64 => .float64
  | .int16 =>
    match t with
    | .int8 => .int16 | .uint8 => .int16 | .int16 => .int16 | .uint16 => .int32
    | .int32 => .int32 | .uint32 => .int64 | .int64 => .int64 | .uint64 => .float64
    | .float16 => .float32 | .float32 => .float32 | .float64 => .float64
  | .uint16 =>
    match t with
    | .int8 => .int32 | .uint8 => .uint16 | .int16 => .int32 | .uint16 => .uint16
    | .int32 => .int32 | .uint32 => .uint32 | .int64 => .int64 | .uint64 => .uint64
    | .float16 => .float32 | .float32 => .float32 | .float64 => .float64
  | .float16 =>
    match t with
    | .int8 => .float16 | .uint8 => .float16 | .int16 => .float32 | .uint16 => .float32
    | .int32 => .float64 | .uint32 => .float64 | .int64 => .float64 | .uint64 => .float64
    | .float16 => .float16 | .float32 => .float32 | .float64 => .float64
  | _ => .float64

/-- numpy scalar equality: nan compares unequal to everything, the
infinities compare equal to themselves, finite values by value. -/
def np_eq_val (a b : NpVal) : Bool :=
  match a, b with
  | .fin x, .fin y => decide (x = y)
  | .inf, .inf => true
  | .ninf, .ninf => true
  | _, _ => false

/-- A numpy array: an element type and the flat list of values (the
shape is irrelevant to down_type, which tests np.all over elements). -/
structure NpArray where
  dtype : NpType
  data : List NpVal

/-- Every element of the array is representable in its dtype. -/
def NpArray.wf (a : NpArray) : Prop := ∀ x ∈ a.data, np_repr a.dtype x

/-- numpy ndarray.astype. -/
def NpArray.astype (a : NpArray) (t : NpType) : NpArray :=
  { dtype := t, data := a.data.map (np_cast t) }

/-- np.all(data == data.astype(s)) for an array of dtype t: both sides
are converted to the promoted common type and compared elementwise. -/
def np_all_eq_cast (t s : NpType) (data : List NpVal) : Bool :=
  data.all (fun x =>
    np_eq_val (np_cast (np_promote t s) x) (np_cast (np_promote t s) (np_cast s x)))

/-- The candidate dtypes of tools.down_type, in source order. -/
def down_candidates : List NpType :=
  [.int8, .uint8, .int16, .uint16, .float16]

/-- tools.down_type: the array is cast to the first candidate dtype
whose cast compares elementwise equal to the data, and is returned
unchanged when no candidate passes. -/
def down_type (a : NpArray) : NpArray :=
  match down_candidates.find? (fun s => np_all_eq_cast a.dtype s a.data) with
  | some s => a.astype s
  | none => a

/-- A constant 3-D volume of the given shape (all voxels share one
value), the edge case named by the specification. -/
def const_vol (n0 n1 n2 : Nat) (c : ℚ) : Image3 :=
  List.replicate n0 (List.replicate n1 (List.replicate n2 c))

-- ===========================================================
-- Theorems
-- ===========================================================

/-- Claim C8: the rotation transform of variant type_0 is the
identity: for every image array and every spacing tuple, applying it
returns an array and spacing equal to the input. -/
theorem claim_C8 (image : Image3) (spacing : SpacingT) :
    rotate_ct_transform image spacing (lit "type_0") = some (image, spacing) := by
  rfl

/-- Claim C10: for every series identifier that does not end with ct,
process_ct_image raises ValueError without touching image or spacing,
whatever the rotation asset table contains. -/
theorem claim_C10 (rmap : PyStr → Option PyStr) (series_id : PyStr)
    (image : Image3) (spacing : SpacingT)
    (h : (lit "ct").isSuffixOf series_id = false) :
    process_ct_image rmap series_id image spacing = .error .valueErr := by
  have h2 : ¬ ((lit "ct") <:+ series_id) := by
    rw [← List.isSuffixOf_iff_suffix]
    simp [h]
  simp [process_ct_image, h2]

/-- Witness for claim C10 at a concrete non-CT identifier. -/
theorem claim_C10_witness :
    (lit "ct").isSuffixOf (lit "sub-S01_ses-E01_cr") = false ∧
      process_ct_image (fun _ => none) (lit "sub-S01_ses-E01_cr") [] []
        = .error .valueErr :=
  ⟨by decide, claim_C10 (fun _ => none) (lit "sub-S01_ses-E01_cr") [] [] (by decide)⟩

/-- Claim C9: with both PixelSpacing and Modality present, modality cr
or dx (case-insensitive) returns the PixelSpacing value and any other
modality raises NotImplementedError; absent tags or a missing field
return None without raising. -/
theorem claim_C9 :
    (∀ (fs : List (PyStr × PyVal)) (sp : PyVal) (m : PyStr),
        dict_lookup fs (lit "PixelSpacing") = some sp →
        dict_lookup fs (lit "Modality") = some (.vStr m) →
        ((py_lower m = (lit "cr") ∨ py_lower m = (lit "dx") →
            spacing_from_tags (.vDict fs) = .ok sp) ∧
          (py_lower m ≠ (lit "cr") → py_lower m ≠ (lit "dx") →
            spacing_from_tags (.vDict fs) = .error .notImplementedErr))) ∧
      spacing_from_tags .vNone = .ok .vNone ∧
      (∀ fs, dict_lookup fs (lit "PixelSpacing") = none →
        spacing_from_tags (.vDict fs) = .ok .vNone) ∧
      (∀ fs, dict_lookup fs (lit "Modality") = none →
        spacing_from_tags (.vDict fs) = .ok .vNone) := by
  refine ⟨?_, rfl, ?_, ?_⟩
  · intro fs sp m hps hmod
    constructor
    · intro hcr
      simp only [spacing_from_tags, hps, hmod]
      rcases hcr with h | h <;> simp [h]
    · intro h1 h2
      simp only [spacing_from_tags, hps, hmod]
      simp
      exact ⟨by simpa using h1, by simpa using h2⟩
  · intro fs h
    simp only [spacing_from_tags, h]
  · intro fs h
    cases hps : dict_lookup fs (lit "PixelSpacing") with
    | none => simp only [spacing_from_tags, hps]
    | some sp => simp only [spacing_from_tags, hps, h]

/-- Witness for claim C9: a cr tag mapping yields its PixelSpacing and
a ct tag mapping raises NotImplementedError. -/
theorem claim_C9_witness :
    spacing_from_tags (.vDict [((lit "PixelSpacing"), .vNum 1),
        ((lit "Modality"), .vStr (lit "CR"))]) = .ok (.vNum 1) ∧
      spacing_from_tags (.vDict [((lit "PixelSpacing"), .vNum 1),
        ((lit "Modality"), .vStr (lit "CT"))]) = .error .notImplementedErr := by
  constructor
  · exact (claim_C9.1 _ _ _ (by rfl) (by rfl)).1 (by left; rfl)
  · exact (claim_C9.1 _ _ _ (by rfl) (by rfl)).2 (by decide) (by decide)

/-- Claim C4: a group of exactly two files with one .json member is
classified with the non-JSON member as image_path and the .json member
as tags_path, in both enumeration orders. -/
theorem claim_C4 (group_name x y : PyStr)
    (hx : (lit ".json").isSuffixOf x = true)
    (hy : (lit ".json").isSuffixOf y = false) :
    emit_group group_name [x, y]
        = some ⟨path_name group_name, some y, some x⟩ ∧
      emit_group group_name [y, x]
        = some ⟨path_name group_name, some y, some x⟩ := by
  rw [List.isSuffixOf_iff_suffix] at hx
  have hy2 : ¬ ((lit ".json") <:+ y) := by
    rw [← List.isSuffixOf_iff_suffix]
    simp [hy]
  constructor <;> simp [emit_group, assign_group_paths, hx, hy2]

/-- Witness for claim C4 at a concrete two-file series group. -/
theorem claim_C4_witness :
    emit_group (lit "sub-S01_ses-E01_ct")
        [(lit "sub-S01_ses-E01_ct.json"), (lit "sub-S01_ses-E01_ct.nii.gz")]
      = some ⟨path_name (lit "sub-S01_ses-E01_ct"),
          some (lit "sub-S01_ses-E01_ct.nii.gz"),
          some (lit "sub-S01_ses-E01_ct.json")⟩ :=
  (claim_C4 (lit "sub-S01_ses-E01_ct") (lit "sub-S01_ses-E01_ct.json")
    (lit "sub-S01_ses-E01_ct.nii.gz") (by decide) (by decide)).1

/-- Helper for claim C5: the grouping loop fails with the assertion
error as soon as any non-directory entry matches none of the known
suffixes, from any accumulator state. -/
theorem build_groups_error (entries : List FSEntry) (e : FSEntry)
    (he : e ∈ entries) (hd : e.isdir = false)
    (hs : strip_extension e.path = none) :
    ∀ acc, build_groups acc entries = .error .assertionErr := by
  induction entries with
  | nil => cases he
  | cons a rest ih =>
    intro acc
    rcases List.mem_cons.1 he with rfl | hmem
    · simp [build_groups, hd, hs]
    · by_cases had : a.isdir
      · simp [build_groups, had]; exact ih hmem _
      · cases hstrip : strip_extension a.path with
        | none => simp [build_groups, had, hstrip]
        | some k =>
          simp only [build_groups, had, if_neg, Bool.false_eq_true,
            not_false_iff, if_false, hstrip]
          cases hfind : acc.find? (fun g => g.1 == k) <;> simp <;> exact ih hmem _

/-- Claim C5: a session subtree containing a non-directory file whose
path ends in none of .json, .tsv, .nii.gz, .png makes the grouper fail
fast with the assertion error; it emits no descriptors at all. -/
theorem claim_C5 (entries : List FSEntry) (e : FSEntry)
    (he : e ∈ entries) (hd : e.isdir = false)
    (hs : ∀ ext ∈ series_extensions, ext.isSuffixOf e.path = false) :
    group_series_files_by_name entries = .error .assertionErr := by
  have hstrip : strip_extension e.path = none := by
    unfold strip_extension
    rw [List.find?_eq_none.2]
    · rfl
    · intro ext hmem
      simp [hs ext hmem]
  unfold group_series_files_by_name
  rw [build_groups_error entries e he hd hstrip []]
  rfl

/-- Witness for claim C5 at a concrete unrecognized file. -/
theorem claim_C5_witness :
    group_series_files_by_name [⟨(lit "sub-S01_ses-E01_ct.txt"), false⟩]
      = .error .assertionErr :=
  claim_C5 _ ⟨(lit "sub-S01_ses-E01_ct.txt"), false⟩ (by simp) rfl (by decide)

/-- Claim C3 counterexample: the single-tag input collapses through the
single-key branch of parse_dicom_tags to the bare value A, not to a
mapping from PatientName to A, even though the resolver maps tag code
00100010 to PatientName. -/
theorem claim_C3_counterexample :
    parse_dicom_tags
        (fun t => if t = lit "00100010" then some (lit "PatientName") else none)
        (.vDict [(lit "00100010",
          .vDict [(lit "Value", .vList [.vStr (lit "A")]),
                  (lit "vr", .vStr (lit "PN"))])])
      = .ok (.vStr (lit "A")) ∧
    parse_dicom_tags
        (fun t => if t = lit "00100010" then some (lit "PatientName") else none)
        (.vDict [(lit "00100010",
          .vDict [(lit "Value", .vList [.vStr (lit "A")]),
                  (lit "vr", .vStr (lit "PN"))])])
      ≠ .ok (.vDict [(lit "PatientName", .vStr (lit "A"))]) := by
  constructor
  · rfl
  · intro h
    rw [show parse_dicom_tags
        (fun t => if t = lit "00100010" then some (lit "PatientName") else none)
        (.vDict [(lit "00100010",
          .vDict [(lit "Value", .vList [.vStr (lit "A")]),
                  (lit "vr", .vStr (lit "PN"))])])
      = .ok (.vStr (lit "A")) from rfl] at h
    simp at h

/-- Claim C3 as amended: the single-tag input collapses to the bare
value A (a single-key dict collapses to the collapse of its value,
dropping the key); the input holding only vr collapses to absent; the
keyword mapping PatientName appears only when the dict carries at least
two tag keys. -/
theorem claim_C3_amended :
    parse_dicom_tags
        (fun t => if t = lit "00100010" then some (lit "PatientName") else none)
        (.vDict [(lit "00100010",
          .vDict [(lit "Value", .vList [.vStr (lit "A")]),
                  (lit "vr", .vStr (lit "PN"))])])
      = .ok (.vStr (lit "A")) ∧
    parse_dicom_tags
        (fun t => if t = lit "00100010" then some (lit "PatientName") else none)
        (.vDict [(lit "vr", .vStr (lit "PN"))])
      = .ok .vNone ∧
    parse_dicom_tags
        (fun t =>
          if t = lit "00100010" then some (lit "PatientName")
          else if t = lit "00080060" then some (lit "Modality") else none)
        (.vDict [(lit "00100010",
            .vDict [(lit "Value", .vList [.vStr (lit "A")]),
                    (lit "vr", .vStr (lit "PN"))]),
          (lit "00080060",
            .vDict [(lit "Value", .vList [.vStr (lit "CR")]),
                    (lit "vr", .vStr (lit "CS"))])])
      = .ok (.vDict [(lit "PatientName", .vStr (lit "A")),
                     (lit "Modality", .vStr (lit "CR"))]) := by
  refine ⟨rfl, rfl, rfl⟩

/-- Claim C1 counterexample: a synthetic two-shard archive set whose
single session (root sub-S01/ses-E01) is split across both shards with
different files yields two SessionSubtrees for that session, one per
shard, each holding only the files of its own shard; it does not yield
exactly one subtree with the union of the files. -/
theorem claim_C1_counterexample :
    sessions_iter
        [[⟨[lit "sub-S01", lit "ses-E01"], true⟩,
          ⟨[lit "sub-S01", lit "ses-E01", lit "a.png"], false⟩],
         [⟨[lit "sub-S01", lit "ses-E01"], true⟩,
          ⟨[lit "sub-S01", lit "ses-E01", lit "b.png"], false⟩]]
      = [(lit "ses-E01", [[lit "a.png"]]), (lit "ses-E01", [[lit "b.png"]])] ∧
    List.countP (fun y => y.1 == lit "ses-E01")
        (sessions_iter
          [[⟨[lit "sub-S01", lit "ses-E01"], true⟩,
            ⟨[lit "sub-S01", lit "ses-E01", lit "a.png"], false⟩],
           [⟨[lit "sub-S01", lit "ses-E01"], true⟩,
            ⟨[lit "sub-S01", lit "ses-E01", lit "b.png"], false⟩]]) ≠ 1 := by
  constructor
  · rfl
  · decide

/-- Claim C1 as amended: for a two-shard archive set in which one
session (same session root sub/ses) is split across both shards with
one file in each, iterating the session extractor yields one
SessionSubtree per shard for that session, in shard order, each
containing exactly the files of its own shard; the files are not merged
into a single subtree. -/
theorem claim_C1_amended (sub ses f1 f2 : PyStr)
    (hsub : (lit "sub-").isPrefixOf sub = true)
    (hses : (lit "ses-").isPrefixOf ses = true)
    (hnot : (lit "sub-").isPrefixOf ses = false) :
    sessions_iter
        [[⟨[sub, ses], true⟩, ⟨[sub, ses, f1], false⟩],
         [⟨[sub, ses], true⟩, ⟨[sub, ses, f2], false⟩]]
      = [(ses, [[f1]]), (ses, [[f2]])] := by
  cases hf1 : (lit "ses-").isPrefixOf f1 <;>
    cases hf2 : (lit "ses-").isPrefixOf f2 <;>
      simp [sessions_iter, shard_sessions, find_session_roots,
        find_session_roots_go, distribute_members, bucket_append, assoc_assign,
        hses, hsub, hnot, hf1, hf2, List.isPrefixOf]

/-- Witness for claim C1 as amended, at the concrete split session. -/
theorem claim_C1_amended_witness :
    sessions_iter
        [[⟨[lit "sub-S01", lit "ses-E01"], true⟩,
          ⟨[lit "sub-S01", lit "ses-E01", lit "a.png"], false⟩],
         [⟨[lit "sub-S01", lit "ses-E01"], true⟩,
          ⟨[lit "sub-S01", lit "ses-E01", lit "b.png"], false⟩]]
      = [(lit "ses-E01", [[lit "a.png"]]), (lit "ses-E01", [[lit "b.png"]])] :=
  claim_C1_amended (lit "sub-S01") (lit "ses-E01") (lit "a.png") (lit "b.png")
    (by decide) (by decide) (by decide)

-- Helper lemmas about the trimming measure.

/-- Row-length sum of one plane. -/
theorem vol_measure_cons (a : Face2) (as : Image3) :
    vol_measure (a :: as)
      = 1 + a.length + (a.map List.length).sum + vol_measure as := by
  simp [vol_measure]
  omega

theorem sum_map_le_of_sublist {α : Type} {l2 l : List α} (h : l2.Sublist l)
    (f : α → Nat) : (l2.map f).sum ≤ (l.map f).sum := by
  refine List.Sublist.sum_le_sum (h.map f) ?_
  intro a _
  exact Nat.zero_le a

theorem measure_tail_lt (a : Face2) (as : Image3) :
    vol_measure as < vol_measure (a :: as) := by
  rw [vol_measure_cons]
  omega

theorem measure_dropLast_lt (v : Image3) (h : v ≠ []) :
    vol_measure v.dropLast < vol_measure v := by
  induction v with
  | nil => exact absurd rfl h
  | cons a as ih =>
    cases as with
    | nil => simp [vol_measure]
    | cons b bs =>
      have hlt := ih (by simp)
      rw [List.dropLast_cons_of_ne_nil (by simp), vol_measure_cons, vol_measure_cons]
      omega

theorem measure_map_tail_le (v : Image3) :
    vol_measure (v.map List.tail) ≤ vol_measure v := by
  induction v with
  | nil => simp
  | cons a as ih =>
    rw [List.map_cons, vol_measure_cons, vol_measure_cons]
    have h1 : a.tail.length ≤ a.length := by
      cases a <;> simp
    have h2 : (a.tail.map List.length).sum ≤ (a.map List.length).sum :=
      sum_map_le_of_sublist (List.tail_sublist a) _
    omega

theorem measure_map_tail_lt (a : Face2) (as : Image3) (ha : a ≠ []) :
    vol_measure ((a :: as).map List.tail) < vol_measure (a :: as) := by
  rw [List.map_cons, vol_measure_cons, vol_measure_cons]
  have h1 : a.tail.length < a.length := by
    cases a with
    | nil => exact absurd rfl ha
    | cons r rs => simp
  have h2 : (a.tail.map List.length).sum ≤ (a.map List.length).sum :=
    sum_map_le_of_sublist (List.tail_sublist a) _
  have h3 := measure_map_tail_le as
  omega

theorem measure_map_dropLast_le (v : Image3) :
    vol_measure (v.map List.dropLast) ≤ vol_measure v := by
  induction v with
  | nil => simp
  | cons a as ih =>
    rw [List.map_cons, vol_measure_cons, vol_measure_cons]
    have h1 : a.dropLast.length ≤ a.length := by
      rw [List.length_dropLast]; omega
    have h2 : (a.dropLast.map List.length).sum ≤ (a.map List.length).sum :=
      sum_map_le_of_sublist (List.dropLast_sublist a) _
    omega

theorem measure_map_dropLast_lt (a : Face2) (as : Image3) (ha : a ≠ []) :
    vol_measure ((a :: as).map List.dropLast) < vol_measure (a :: as) := by
  rw [List.map_cons, vol_measure_cons, vol_measure_cons]
  have h1 : a.dropLast.length < a.length := by
    rw [List.length_dropLast]
    cases a with
    | nil => exact absurd rfl ha
    | cons r rs => simp
  have h2 : (a.dropLast.map List.length).sum ≤ (a.map List.length).sum :=
    sum_map_le_of_sublist (List.dropLast_sublist a) _
  have h3 := measure_map_dropLast_le as
  omega

theorem rowsum_map_tail_le (p : Face2) :
    ((p.map List.tail).map List.length).sum ≤ (p.map List.length).sum := by
  induction p with
  | nil => simp
  | cons r rs ih =>
    simp only [List.map_cons, List.sum_cons]
    have : r.tail.length ≤ r.length := by cases r <;> simp
    omega

theorem rowsum_map_tail_lt (r : List ℚ) (rs : Face2) (hr : r ≠ []) :
    (((r :: rs).map List.tail).map List.length).sum
      < ((r :: rs).map List.length).sum := by
  simp only [List.map_cons, List.sum_cons]
  have h1 : r.tail.length < r.length := by
    cases r with
    | nil => exact absurd rfl hr
    | cons x xs => simp
  have h2 := rowsum_map_tail_le rs
  omega

theorem measure_map_map_tail_le (v : Image3) :
    vol_measure (v.map (fun p => p.map List.tail)) ≤ vol_measure v := by
  induction v with
  | nil => simp
  | cons a as ih =>
    rw [List.map_cons, vol_measure_cons, vol_measure_cons]
    have h2 := rowsum_map_tail_le a
    simp only [List.length_map]
    omega

theorem measure_map_map_tail_lt (a : Face2) (as : Image3) (r : List ℚ)
    (rs : Face2) (ha : a = r :: rs) (hr : r ≠ []) :
    vol_measure ((a :: as).map (fun p => p.map List.tail))
      < vol_measure (a :: as) := by
  subst ha
  rw [List.map_cons, vol_measure_cons, vol_measure_cons]
  have h2 := rowsum_map_tail_lt r rs hr
  have h3 : vol_measure (List.map (fun p : Face2 => p.map List.tail) as)
      ≤ vol_measure as := measure_map_map_tail_le as
  simp only [List.length_map]
  omega

theorem rowsum_map_dropLast_le (p : Face2) :
    ((p.map List.dropLast).map List.length).sum ≤ (p.map List.length).sum := by
  induction p with
  | nil => simp
  | cons r rs ih =>
    simp only [List.map_cons, List.sum_cons]
    have : r.dropLast.length ≤ r.length := by rw [List.length_dropLast]; omega
    omega

theorem rowsum_map_dropLast_lt (r : List ℚ) (rs : Face2) (hr : r ≠ []) :
    (((r :: rs).map List.dropLast).map List.length).sum
      < ((r :: rs).map List.length).sum := by
  simp only [List.map_cons, List.sum_cons]
  have h1 : r.dropLast.length < r.length := by
    rw [List.length_dropLast]
    cases r with
    | nil => exact absurd rfl hr
    | cons x xs => simp
  have h2 := rowsum_map_dropLast_le rs
  omega

theorem measure_map_map_dropLast_le (v : Image3) :
    vol_measure (v.map (fun p => p.map List.dropLast)) ≤ vol_measure v := by
  induction v with
  | nil => simp
  | cons a as ih =>
    rw [List.map_cons, vol_measure_cons, vol_measure_cons]
    have h2 := rowsum_map_dropLast_le a
    simp only [List.length_map]
    omega

theorem measure_map_map_dropLast_lt (a : Face2) (as : Image3) (r : List ℚ)
    (rs : Face2) (ha : a = r :: rs) (hr : r ≠ []) :
    vol_measure ((a :: as).map (fun p => p.map List.dropLast))
      < vol_measure (a :: as) := by
  subst ha
  rw [List.map_cons, vol_measure_cons, vol_measure_cons]
  have h2 := rowsum_map_dropLast_lt r rs hr
  have h3 : vol_measure (List.map (fun p : Face2 => p.map List.dropLast) as)
      ≤ vol_measure as := measure_map_map_dropLast_le as
  simp only [List.length_map]
  omega

-- Facts extracted from successful face extractions.

theorem mapM_head_ne_nil {α : Type} {v : List (List α)} {l : List α}
    (h : v.mapM List.head? = some l) : ∀ p ∈ v, p ≠ [] := by
  induction v generalizing l with
  | nil => intro p hp; cases hp
  | cons a as ih =>
    intro p hp
    rw [List.mapM_cons] at h
    cases ha : a.head? with
    | none => rw [ha] at h; cases h
    | some x =>
      rw [ha] at h
      cases hr : as.mapM List.head? with
      | none => rw [hr] at h; cases h
      | some xs =>
        rcases List.mem_cons.1 hp with rfl | hmem
        · intro e; subst e; cases ha
        · exact ih hr p hmem

theorem mapM_inner_ne_nil {v : Image3} {l : Face2}
    (h : v.mapM (fun plane => plane.mapM List.head?) = some l) :
    ∀ p ∈ v, ∀ r ∈ p, r ≠ [] := by
  induction v generalizing l with
  | nil => intro p hp; cases hp
  | cons a as ih =>
    intro p hp
    rw [List.mapM_cons] at h
    cases ha : a.mapM List.head? with
    | none => rw [ha] at h; cases h
    | some x =>
      rw [ha] at h
      cases hr : as.mapM (fun plane => plane.mapM List.head?) with
      | none => rw [hr] at h; cases h
      | some xs =>
        rcases List.mem_cons.1 hp with rfl | hmem
        · exact mapM_head_ne_nil ha
        · exact ih hr p hmem

/-- Every trim taken by one scan pass strictly shrinks the volume
measure (this is the termination argument of the while loop). -/
theorem clean_scan_decrease {f : Face2 → Bool} {v w : Image3}
    (h : clean_scan f v = .ok (some w)) : vol_measure w < vol_measure v := by
  unfold clean_scan at h
  cases hF1 : face_a0_min v with
  | none => simp only [hF1] at h; cases h
  | some f1 =>
  simp only [hF1] at h
  obtain ⟨a, as, rfl⟩ : ∃ a as, v = a :: as := by
    cases v with
    | nil => cases hF1
    | cons a as => exact ⟨a, as, rfl⟩
  by_cases hb1 : f f1 = true
  · rw [if_pos hb1] at h
    have hw : trim_a0_min (a :: as) = w := by simpa using h
    subst hw
    exact measure_tail_lt a as
  · rw [if_neg hb1] at h
    cases hF2 : face_a0_max (a :: as) with
    | none => simp only [hF2] at h; cases h
    | some f2 =>
    simp only [hF2] at h
    by_cases hb2 : f f2 = true
    · rw [if_pos hb2] at h
      have hw : trim_a0_max (a :: as) = w := by simpa using h
      subst hw
      exact measure_dropLast_lt (a :: as) (by simp)
    · rw [if_neg hb2] at h
      cases hF3 : face_a1_min (a :: as) with
      | none => simp only [hF3] at h; cases h
      | some f3 =>
      simp only [hF3] at h
      have hplanes := mapM_head_ne_nil hF3
      have ha : a ≠ [] := hplanes a (List.mem_cons_self a as)
      by_cases hb3 : f f3 = true
      · rw [if_pos hb3] at h
        have hw : trim_a1_min (a :: as) = w := by simpa using h
        subst hw
        exact measure_map_tail_lt a as ha
      · rw [if_neg hb3] at h
        cases hF4 : face_a1_max (a :: as) with
        | none => simp only [hF4] at h; cases h
        | some f4 =>
        simp only [hF4] at h
        by_cases hb4 : f f4 = true
        · rw [if_pos hb4] at h
          have hw : trim_a1_max (a :: as) = w := by simpa using h
          subst hw
          exact measure_map_dropLast_lt a as ha
        · rw [if_neg hb4] at h
          cases hF5 : face_a2_min (a :: as) with
          | none => simp only [hF5] at h; cases h
          | some f5 =>
          simp only [hF5] at h
          have hrows := mapM_inner_ne_nil hF5
          obtain ⟨r, rs, har⟩ : ∃ r rs, a = r :: rs := by
            cases a with
            | nil => exact absurd rfl ha
            | cons r rs => exact ⟨r, rs, rfl⟩
          have hr : r ≠ [] := by
            refine hrows a (List.mem_cons_self a as) r ?_
            rw [har]; exact List.mem_cons_self r rs
          by_cases hb5 : f f5 = true
          · rw [if_pos hb5] at h
            have hw : trim_a2_min (a :: as) = w := by simpa using h
            subst hw
            exact measure_map_map_tail_lt a as r rs har hr
          · rw [if_neg hb5] at h
            cases hF6 : face_a2_max (a :: as) with
            | none => simp only [hF6] at h; cases h
            | some f6 =>
            simp only [hF6] at h
            by_cases hb6 : f f6 = true
            · rw [if_pos hb6] at h
              have hw : trim_a2_max (a :: as) = w := by simpa using h
              subst hw
              exact measure_map_map_dropLast_lt a as r rs har hr
            · rw [if_neg hb6] at h
              cases h

/-- Fuel monotonicity: a loop result obtained with some fuel is stable
under any larger fuel. -/
theorem clean_3dimage_fuel_mono {f : Face2 → Bool} {v : Image3}
    {r : Except PyErr Image3} {n : Nat}
    (h : clean_3dimage_fuel n f v = some r) :
    ∀ m, n ≤ m → clean_3dimage_fuel m f v = some r := by
  induction n generalizing v r with
  | zero => cases h
  | succ k ih =>
    intro m hm
    cases m with
    | zero => omega
    | succ m2 =>
      rw [clean_3dimage_fuel] at h
      rw [clean_3dimage_fuel]
      cases hs : clean_scan f v with
      | error e => simp only [hs] at h ⊢; exact h
      | ok o =>
        cases o with
        | none => simp only [hs] at h ⊢; exact h
        | some v2 =>
          simp only [hs] at h ⊢
          exact ih h m2 (by omega)

/-- Fuel beyond the volume measure never runs out. -/
theorem clean_3dimage_fuel_total (f : Face2 → Bool) :
    ∀ n (v : Image3), vol_measure v < n →
      ∃ r, clean_3dimage_fuel n f v = some r := by
  intro n
  induction n with
  | zero => intro v h; omega
  | succ k ih =>
    intro v hv
    rw [clean_3dimage_fuel]
    cases hs : clean_scan f v with
    | error e => exact ⟨.error e, rfl⟩
    | ok o =>
      cases o with
      | none => exact ⟨.ok v, rfl⟩
      | some v2 =>
        have hd := clean_scan_decrease hs
        exact ih v2 (by omega)

/-- The loop with fuel vol_measure v + 1 computes clean_3dimage. -/
theorem clean_3dimage_fuel_spec (f : Face2 → Bool) (v : Image3) :
    clean_3dimage_fuel (vol_measure v + 1) f v
      = some (clean_3dimage f v) := by
  obtain ⟨r, hr⟩ := clean_3dimage_fuel_total f (vol_measure v + 1) v (by omega)
  rw [clean_3dimage, hr]
  rfl

/-- A scan pass that finds no degenerate face ends the loop with the
volume unchanged. -/
theorem clean_3dimage_of_scan_none {f : Face2 → Bool} {v : Image3}
    (h : clean_scan f v = .ok none) : clean_3dimage f v = .ok v := by
  rw [clean_3dimage, clean_3dimage_fuel, h]
  rfl

/-- A failing scan pass propagates its error. -/
theorem clean_3dimage_of_scan_error {f : Face2 → Bool} {v : Image3}
    {e : PyErr} (h : clean_scan f v = .error e) :
    clean_3dimage f v = .error e := by
  rw [clean_3dimage, clean_3dimage_fuel, h]
  rfl

/-- A scan pass that trims continues the loop on the trimmed volume. -/
theorem clean_3dimage_of_scan_trim {f : Face2 → Bool} {v w : Image3}
    (h : clean_scan f v = .ok (some w)) :
    clean_3dimage f v = clean_3dimage f w := by
  have h1 := clean_3dimage_fuel_spec f v
  rw [clean_3dimage_fuel] at h1
  simp only [h] at h1
  have h2 := clean_3dimage_fuel_mono (clean_3dimage_fuel_spec f w)
    (vol_measure v) (by have := clean_scan_decrease h; omega)
  rw [h1] at h2
  exact Option.some.inj h2

/-- When the loop returns a volume, the scan on that volume finds no
degenerate face. -/
theorem clean_3dimage_fuel_ok_scan_none {f : Face2 → Bool} {n : Nat} :
    ∀ {v w : Image3}, clean_3dimage_fuel n f v = some (.ok w) →
      clean_scan f w = .ok none := by
  induction n with
  | zero => intro v w h; cases h
  | succ k ih =>
    intro v w h
    rw [clean_3dimage_fuel] at h
    cases hs : clean_scan f v with
    | error e => simp only [hs] at h; simp at h
    | ok o =>
      cases o with
      | none =>
        simp only [hs] at h
        have hvw : v = w := by simpa using h
        exact hvw ▸ hs
      | some v2 =>
        simp only [hs] at h
        exact ih h

-- Evaluation lemmas for constant volumes.

theorem getLast?_replicate {α : Type} (n : Nat) (a : α) :
    (List.replicate (n + 1) a).getLast? = some a := by
  induction n with
  | zero => rfl
  | succ k ih =>
    rw [List.replicate_succ, List.replicate_succ] at *
    rw [List.getLast?_cons_cons]
    rw [← List.replicate_succ] at *
    exact ih

theorem mapM_replicate {α β : Type} {f : α → Option β} {a : α} {b : β}
    (h : f a = some b) (k : Nat) :
    (List.replicate k a).mapM f = some (List.replicate k b) := by
  induction k with
  | zero => rfl
  | succ m ih =>
    rw [List.replicate_succ, List.mapM_cons, h, ih]
    rfl

theorem mapM_replicate_none {α β : Type} {f : α → Option β} {a : α}
    (h : f a = none) (k : Nat) :
    (List.replicate (k + 1) a).mapM f = none := by
  rw [List.replicate_succ, List.mapM_cons, h]
  rfl

theorem flatten_replicate_rep (n1 n2 : Nat) (c : ℚ) :
    (List.replicate n1 (List.replicate n2 c)).flatten
      = List.replicate (n1 * n2) c := by
  induction n1 with
  | zero => simp
  | succ m ih =>
    rw [List.replicate_succ, List.flatten_cons, ih, ← List.replicate_add]
    congr 1
    ring

theorem dedup_replicate (k : Nat) (c : ℚ) :
    (List.replicate (k + 1) c).dedup = [c] := by
  induction k with
  | zero => rfl
  | succ m ih =>
    rw [List.replicate_succ, List.dedup_cons_of_mem, ih]
    rw [List.mem_replicate]
    exact ⟨by omega, rfl⟩

theorem blank_const (m j : Nat) (c : ℚ) :
    blank_filter (List.replicate (m + 1) (List.replicate (j + 1) c)) = true := by
  rw [blank_filter, flatten_replicate_rep]
  have : (m + 1) * (j + 1) = m * j + m + j + 1 := by ring
  rw [this, dedup_replicate]
  rfl

theorem filt_nil_face : blank_and_regularity_filter [] = false := by
  rw [blank_and_regularity_filter, blank_filter, regularity_filter,
    estimate_regularity]
  norm_num

theorem filt_rep_nil (n : Nat) :
    blank_and_regularity_filter (List.replicate (n + 1) []) = false := by
  rw [blank_and_regularity_filter, blank_filter, regularity_filter,
    estimate_regularity]
  have hf : (List.replicate (n + 1) ([] : List ℚ)).flatten = [] := by simp
  rw [hf]
  norm_num

theorem scan_nil (f : Face2 → Bool) : clean_scan f [] = .error .indexErr := rfl

theorem scan_rep_nil (k : Nat) :
    clean_scan blank_and_regularity_filter (List.replicate (k + 1) ([] : Face2))
      = .error .indexErr := by
  have h1 : face_a0_min (List.replicate (k + 1) ([] : Face2)) = some [] := by
    simp [face_a0_min, List.replicate_succ]
  have h2 : face_a0_max (List.replicate (k + 1) ([] : Face2)) = some [] := by
    simp only [face_a0_max]
    exact getLast?_replicate k []
  have h3 : face_a1_min (List.replicate (k + 1) ([] : Face2)) = none := by
    simp only [face_a1_min]
    exact mapM_replicate_none rfl k
  unfold clean_scan
  simp only [h1, h2, h3, filt_nil_face]
  simp

theorem scan_rep_rep_nil (k m : Nat) :
    clean_scan blank_and_regularity_filter
      (List.replicate (k + 1) (List.replicate (m + 1) ([] : List ℚ)))
      = .error .indexErr := by
  have h1 : face_a0_min (List.replicate (k + 1) (List.replicate (m + 1) ([] : List ℚ)))
      = some (List.replicate (m + 1) []) := by
    simp [face_a0_min, List.replicate_succ]
  have h2 : face_a0_max (List.replicate (k + 1) (List.replicate (m + 1) ([] : List ℚ)))
      = some (List.replicate (m + 1) []) := by
    simp only [face_a0_max]
    exact getLast?_replicate k _
  have h3 : face_a1_min (List.replicate (k + 1) (List.replicate (m + 1) ([] : List ℚ)))
      = some (List.replicate (k + 1) []) := by
    simp only [face_a1_min]
    exact mapM_replicate (by simp [List.replicate_succ]) (k + 1)
  have h4 : face_a1_max (List.replicate (k + 1) (List.replicate (m + 1) ([] : List ℚ)))
      = some (List.replicate (k + 1) []) := by
    simp only [face_a1_max]
    exact mapM_replicate (getLast?_replicate m _) (k + 1)
  have h5 : face_a2_min (List.replicate (k + 1) (List.replicate (m + 1) ([] : List ℚ)))
      = none := by
    simp only [face_a2_min]
    exact mapM_replicate_none (mapM_replicate_none rfl m) k
  unfold clean_scan
  simp only [h1, h2, h3, h4, h5, filt_rep_nil m, filt_rep_nil k]
  simp

theorem scan_const_step (k m j : Nat) (c : ℚ) :
    clean_scan blank_and_regularity_filter
      (const_vol (k + 1) (m + 1) (j + 1) c)
      = .ok (some (const_vol k (m + 1) (j + 1) c)) := by
  have h1 : face_a0_min (const_vol (k + 1) (m + 1) (j + 1) c)
      = some (List.replicate (m + 1) (List.replicate (j + 1) c)) := by
    simp [const_vol, face_a0_min, List.replicate_succ]
  have hfilt : blank_and_regularity_filter
      (List.replicate (m + 1) (List.replicate (j + 1) c)) = true := by
    simp [blank_and_regularity_filter, blank_const]
  have htrim : trim_a0_min (const_vol (k + 1) (m + 1) (j + 1) c)
      = const_vol k (m + 1) (j + 1) c := by
    simp [const_vol, trim_a0_min, List.replicate_succ]
  unfold clean_scan
  simp only [h1, hfilt, htrim, if_true]

/-- Claim C2 as amended: the border-trimming loop always terminates
(fuel one more than the volume measure suffices to compute the result),
but on a volume all of whose voxels share a single value the loop trims
the first axis until it is empty and then raises IndexError when the
first face is extracted; it does not return an empty array. -/
theorem claim_C2 :
    (∀ (filter_fn : Face2 → Bool) (image : Image3),
      clean_3dimage_fuel (vol_measure image + 1) filter_fn image
        = some (clean_3dimage filter_fn image)) ∧
    (∀ (n0 n1 n2 : Nat) (c : ℚ),
      clean_ct_image (const_vol n0 n1 n2 c) = .error .indexErr) := by
  constructor
  · exact fun f v => clean_3dimage_fuel_spec f v
  · intro n0 n1 n2 c
    induction n0 with
    | zero =>
      rw [clean_ct_image]
      exact clean_3dimage_of_scan_error (by
        simp only [const_vol, List.replicate_zero]
        exact scan_nil _)
    | succ k ih =>
      cases n1 with
      | zero =>
        rw [clean_ct_image]
        refine clean_3dimage_of_scan_error ?_
        have : const_vol (k + 1) 0 n2 c = List.replicate (k + 1) ([] : Face2) := by
          simp [const_vol]
        rw [this]
        exact scan_rep_nil k
      | succ m =>
        cases n2 with
        | zero =>
          rw [clean_ct_image]
          refine clean_3dimage_of_scan_error ?_
          have : const_vol (k + 1) (m + 1) 0 c
              = List.replicate (k + 1) (List.replicate (m + 1) ([] : List ℚ)) := by
            simp [const_vol]
          rw [this]
          exact scan_rep_rep_nil k m
        | succ j =>
          rw [clean_ct_image] at *
          rw [clean_3dimage_of_scan_trim (scan_const_step k m j c)]
          exact ih

/-- Claim C2 counterexample: on the concrete constant volume of shape
one by one by one, clean_ct_image raises IndexError instead of
returning an empty array. -/
theorem claim_C2_counterexample :
    clean_ct_image [[[5]]] = .error .indexErr := by
  rw [clean_ct_image]
  have hstep : clean_scan blank_and_regularity_filter [[[5]]]
      = .ok (some ([] : Image3)) := by
    have := scan_const_step 0 0 0 5
    simpa [const_vol] using this
  rw [clean_3dimage_of_scan_trim hstep]
  exact clean_3dimage_of_scan_error (scan_nil _)

/-- Claim C7: when no face of a volume satisfies the degeneracy
predicate (the scan pass finds nothing to trim), border trimming
returns the volume unchanged; consequently trimming is idempotent:
whatever volume the trim returns, trimming it again returns it. -/
theorem claim_C7 (v w : Image3) :
    (clean_scan blank_and_regularity_filter v = .ok none →
      clean_ct_image v = .ok v) ∧
    (clean_ct_image v = .ok w → clean_ct_image w = .ok w) := by
  constructor
  · intro h
    rw [clean_ct_image]
    exact clean_3dimage_of_scan_none h
  · intro h
    rw [clean_ct_image] at h
    rw [clean_ct_image]
    have h1 := clean_3dimage_fuel_spec blank_and_regularity_filter v
    rw [h] at h1
    exact clean_3dimage_of_scan_none (clean_3dimage_fuel_ok_scan_none h1)

-- Evaluation of the degeneracy predicate on a checkerboard volume,
-- used to witness claim C7 on a concrete already-trimmed volume.

theorem getD_half (j : Int) :
    (([(2 : ℚ)⁻¹, 2⁻¹])[reflect_index 2 j]?).getD 0 = 2⁻¹ := by
  rw [reflect_index]
  have h2 : (0 : Int) ≤ j % (2 * (2 : Nat)) := Int.emod_nonneg j (by norm_num)
  have h3 : j % (2 * (2 : Nat)) < 4 := by
    have h4 := Int.emod_lt_of_pos j (show (0 : Int) < 2 * (2 : Nat) by norm_num)
    simpa using h4
  interval_cases h : (j % (2 * (2 : Nat))) <;> simp [List.getD]

theorem window_half (i : Nat) :
    filter_window [(1 : ℚ)/2, 1/2] i
      = [1/2, 1/2, 1/2, 1/2, 1/2, 1/2, 1/2, 1/2, 1/2, 1/2] := by
  rw [filter_window, show List.range 10 = [0,1,2,3,4,5,6,7,8,9] from rfl]
  simp [getD_half]


theorem minimum_filter_half :
    minimum_filter [(1 : ℚ)/2, 1/2] = [1/2, 1/2] := by
  rw [minimum_filter, show List.range (List.length [(1 : ℚ)/2, 1/2]) = [0, 1] from rfl]
  simp only [List.map_cons, List.map_nil, window_half]
  norm_num [List.min?]

theorem maximum_filter_half :
    maximum_filter [(1 : ℚ)/2, 1/2] = [1/2, 1/2] := by
  rw [maximum_filter, show List.range (List.length [(1 : ℚ)/2, 1/2]) = [0, 1] from rfl]
  simp only [List.map_cons, List.map_nil, window_half]
  norm_num [List.max?]

theorem est_reg_checker_A :
    estimate_regularity [[(0 : ℚ), 1], [1, 0]] = 0 := by
  have hq1 : np_quantile [(0 : ℚ), 1, 1, 0] (3 / 100) = 0 := by
    rw [np_quantile, show rsorted [(0 : ℚ), 1, 1, 0] = [0, 0, 1, 1] by
      norm_num [rsorted, rinsert]]
    norm_num
  have hq2 : np_quantile [(0 : ℚ), 1, 1, 0] (97 / 100) = 1 := by
    rw [np_quantile, show rsorted [(0 : ℚ), 1, 1, 0] = [0, 0, 1, 1] by
      norm_num [rsorted, rinsert]]
    norm_num [show Int.toNat 2 = 2 from rfl]
  have hcols : col_means [[(0 : ℚ), 1], [1, 0]] = [1/2, 1/2] := by
    rw [col_means,
      show List.transpose [[(0 : ℚ), 1], [1, 0]] = [[0, 1], [1, 0]] from rfl]
    norm_num [np_mean]
  have hrows : row_means [[(0 : ℚ), 1], [1, 0]] = [1/2, 1/2] := by
    norm_num [row_means, np_mean]
  rw [estimate_regularity]
  simp only [show ([[(0 : ℚ), 1], [1, 0]] : Face2).flatten = [0, 1, 1, 0] from rfl,
    hq1, hq2, hcols, hrows]
  norm_num [minimum_filter_half, maximum_filter_half, np_mean]

theorem est_reg_checker_B :
    estimate_regularity [[(1 : ℚ), 0], [0, 1]] = 0 := by
  have hq1 : np_quantile [(1 : ℚ), 0, 0, 1] (3 / 100) = 0 := by
    rw [np_quantile, show rsorted [(1 : ℚ), 0, 0, 1] = [0, 0, 1, 1] by
      norm_num [rsorted, rinsert]]
    norm_num
  have hq2 : np_quantile [(1 : ℚ), 0, 0, 1] (97 / 100) = 1 := by
    rw [np_quantile, show rsorted [(1 : ℚ), 0, 0, 1] = [0, 0, 1, 1] by
      norm_num [rsorted, rinsert]]
    norm_num [show Int.toNat 2 = 2 from rfl]
  have hcols : col_means [[(1 : ℚ), 0], [0, 1]] = [1/2, 1/2] := by
    rw [col_means,
      show List.transpose [[(1 : ℚ), 0], [0, 1]] = [[1, 0], [0, 1]] from rfl]
    norm_num [np_mean]
  have hrows : row_means [[(1 : ℚ), 0], [0, 1]] = [1/2, 1/2] := by
    norm_num [row_means, np_mean]
  rw [estimate_regularity]
  simp only [show ([[(1 : ℚ), 0], [0, 1]] : Face2).flatten = [1, 0, 0, 1] from rfl,
    hq1, hq2, hcols, hrows]
  norm_num [minimum_filter_half, maximum_filter_half, np_mean]

theorem filt_checker_A :
    blank_and_regularity_filter [[(0 : ℚ), 1], [1, 0]] = false := by
  rw [blank_and_regularity_filter, regularity_filter, est_reg_checker_A]
  norm_num [blank_filter, List.dedup_cons_of_mem, List.dedup_cons_of_not_mem]

theorem filt_checker_B :
    blank_and_regularity_filter [[(1 : ℚ), 0], [0, 1]] = false := by
  rw [blank_and_regularity_filter, regularity_filter, est_reg_checker_B]
  norm_num [blank_filter, List.dedup_cons_of_mem, List.dedup_cons_of_not_mem]

theorem scan_checker :
    clean_scan blank_and_regularity_filter
      [[[(0 : ℚ), 1], [1, 0]], [[1, 0], [0, 1]]] = .ok none := by
  unfold clean_scan
  simp only [
    show face_a0_min [[[(0 : ℚ), 1], [1, 0]], [[1, 0], [0, 1]]]
      = some [[0, 1], [1, 0]] from rfl,
    show face_a0_max [[[(0 : ℚ), 1], [1, 0]], [[1, 0], [0, 1]]]
      = some [[1, 0], [0, 1]] from rfl,
    show face_a1_min [[[(0 : ℚ), 1], [1, 0]], [[1, 0], [0, 1]]]
      = some [[0, 1], [1, 0]] from rfl,
    show face_a1_max [[[(0 : ℚ), 1], [1, 0]], [[1, 0], [0, 1]]]
      = some [[1, 0], [0, 1]] from rfl,
    show face_a2_min [[[(0 : ℚ), 1], [1, 0]], [[1, 0], [0, 1]]]
      = some [[0, 1], [1, 0]] from rfl,
    show face_a2_max [[[(0 : ℚ), 1], [1, 0]], [[1, 0], [0, 1]]]
      = some [[1, 0], [0, 1]] from rfl,
    filt_checker_A, filt_checker_B]
  simp

/-- Witness for claim C7 at a concrete checkerboard volume on which no
face is degenerate. -/
theorem claim_C7_witness :
    clean_scan blank_and_regularity_filter
        [[[(0 : ℚ), 1], [1, 0]], [[1, 0], [0, 1]]] = .ok none ∧
      clean_ct_image [[[(0 : ℚ), 1], [1, 0]], [[1, 0], [0, 1]]]
        = .ok [[[(0 : ℚ), 1], [1, 0]], [[1, 0], [0, 1]]] :=
  ⟨scan_checker,
    (claim_C7 [[[(0 : ℚ), 1], [1, 0]], [[1, 0], [0, 1]]]
      [[[(0 : ℚ), 1], [1, 0]], [[1, 0], [0, 1]]]).1 scan_checker⟩

-- Lemmas for the dtype-casting model (claim C6).

theorem rne_intCast (n : ℤ) : rne ((n : ℚ)) = n := by
  rw [rne]
  norm_num

theorem rne_le (q : ℚ) : ((rne q : ℤ) : ℚ) ≤ q + 1 / 2 := by
  rw [rne]
  have hfl : (⌊q⌋ : ℚ) ≤ q := Int.floor_le q
  have hfu : q < (⌊q⌋ : ℚ) + 1 := Int.lt_floor_add_one q
  by_cases h1 : q - (⌊q⌋ : ℚ) < 1 / 2
  · rw [if_pos h1]
    linarith
  · rw [if_neg h1]
    by_cases h2 : 1 / 2 < q - (⌊q⌋ : ℚ)
    · rw [if_pos h2]
      push_cast
      linarith
    · rw [if_neg h2]
      have heq : q - (⌊q⌋ : ℚ) = 1 / 2 := by linarith
      by_cases h3 : ⌊q⌋ % 2 = 0
      · rw [if_pos h3]; linarith
      · rw [if_neg h3]; push_cast; linarith

theorem rne_ge (q : ℚ) : q - 1 / 2 ≤ ((rne q : ℤ) : ℚ) := by
  rw [rne]
  have hfl : (⌊q⌋ : ℚ) ≤ q := Int.floor_le q
  have hfu : q < (⌊q⌋ : ℚ) + 1 := Int.lt_floor_add_one q
  by_cases h1 : q - (⌊q⌋ : ℚ) < 1 / 2
  · rw [if_pos h1]
    linarith
  · rw [if_neg h1]
    by_cases h2 : 1 / 2 < q - (⌊q⌋ : ℚ)
    · rw [if_pos h2]
      push_cast
      linarith
    · rw [if_neg h2]
      by_cases h3 : ⌊q⌋ % 2 = 0
      · rw [if_pos h3]; linarith
      · rw [if_neg h3]; push_cast; linarith

theorem abs_rne_le (q : ℚ) : |((rne q : ℤ) : ℚ)| ≤ |q| + 1 / 2 := by
  rw [abs_le]
  have h1 := rne_le q
  have h2 := rne_ge q
  have h3 := abs_nonneg q
  have h4 := le_abs_self q
  have h5 := neg_abs_le q
  constructor <;> linarith

theorem abs_rne_ge (q : ℚ) (hq : 1 ≤ |q|) : |q| - 1 / 2 ≤ |((rne q : ℤ) : ℚ)| := by
  have h1 := rne_le q
  have h2 := rne_ge q
  rcases abs_cases q with ⟨he, _⟩ | ⟨he, hneg⟩
  · rw [he] at hq ⊢
    have : (0 : ℚ) ≤ ((rne q : ℤ) : ℚ) := by linarith
    rw [abs_of_nonneg this]
    linarith
  · rw [he] at hq ⊢
    have : ((rne q : ℤ) : ℚ) ≤ 0 := by linarith
    rw [abs_of_nonpos this]
    linarith

theorem qtrunc_intCast (n : ℤ) : qtrunc ((n : ℚ)) = n := by
  rw [qtrunc]
  by_cases h : (0 : ℚ) ≤ (n : ℚ)
  · rw [if_pos h]
    exact Int.floor_intCast n
  · rw [if_neg h]
    rw [← Int.cast_neg, Int.floor_intCast]
    omega

theorem cast_int_exact {lo modl n : ℤ} (h1 : lo ≤ n) (h2 : n ≤ lo + modl - 1) : cast_int lo modl (.fin ((n : ℚ))) = .fin ((n : ℚ)) := by
  rw [cast_int]
  rw [qtrunc_intCast]
  have h3 : (n - lo) % modl = n - lo := Int.emod_eq_of_lt (by omega) (by omega)
  rw [h3]
  norm_num

theorem cast_int_repr {lo modl : ℤ} (hm : 0 < modl) (h0a : lo ≤ 0)
    (h0b : 0 ≤ lo + modl - 1) (x : NpVal) :
    int_repr lo (lo + modl - 1) (cast_int lo modl x) := by
  cases x with
  | fin q =>
    rw [cast_int]
    refine ⟨(qtrunc q - lo) % modl + lo, rfl, ?_, ?_⟩
    · have := Int.emod_nonneg (qtrunc q - lo) (show modl ≠ 0 by omega)
      omega
    · have := Int.emod_lt_of_pos (qtrunc q - lo) hm
      omega
  | inf => exact ⟨0, rfl, h0a, h0b⟩
  | ninf => exact ⟨0, rfl, h0a, h0b⟩
  | nan => exact ⟨0, rfl, h0a, h0b⟩

theorem cast_float_zero {p : ℕ} {emin : ℤ} {maxfin : ℚ} (hmaxpos : 0 ≤ maxfin) :
    cast_float p emin maxfin (.fin 0) = .fin 0 := by
  rw [cast_float]
  have h1 : (0 : ℚ) / 2 ^ max emin (Int.log 2 |(0 : ℚ)| - (p : ℤ) + 1) = ((0 : ℤ) : ℚ) := by
    norm_num
  rw [h1, rne_intCast]
  norm_num
  rw [if_neg (not_lt.2 hmaxpos), if_neg (not_lt.2 hmaxpos)]

theorem cast_float_exact {p : ℕ} {emin : ℤ} {maxfin : ℚ} {q : ℚ} (m g : ℤ)
    (hq : q = (m : ℚ) * 2 ^ g) (hm : |m| < 2 ^ p) (hg : emin ≤ g)
    (hmax : |q| ≤ maxfin) (hmaxpos : 0 ≤ maxfin) :
    cast_float p emin maxfin (.fin q) = .fin q := by
  by_cases hm0 : m = 0
  · subst hm0
    have hq0 : q = 0 := by rw [hq]; ring
    rw [hq0]
    exact cast_float_zero hmaxpos
  · have h2pos : ∀ x : ℤ, (0 : ℚ) < 2 ^ x := fun x => zpow_pos (by norm_num) x
    have hqne : q ≠ 0 := by
      rw [hq]
      intro hc
      rcases mul_eq_zero.1 hc with hc1 | hc2
      · exact hm0 (by exact_mod_cast hc1)
      · exact absurd hc2 (ne_of_gt (h2pos g))
    have habsq : |q| = |(m : ℚ)| * 2 ^ g := by
      rw [hq, abs_mul, abs_of_pos (h2pos g)]
    have habspos : (0 : ℚ) < |q| := abs_pos.2 hqne
    have hmq : |(m : ℚ)| < 2 ^ (p : ℤ) := by
      have : ((|m| : ℤ) : ℚ) < ((2 ^ p : ℤ) : ℚ) := by exact_mod_cast hm
      rw [Int.cast_abs] at this
      calc |(m : ℚ)| < ((2 ^ p : ℤ) : ℚ) := this
        _ = 2 ^ (p : ℤ) := by push_cast [zpow_natCast]; ring
    have hqlt : |q| < 2 ^ (g + (p : ℤ)) := by
      rw [habsq, zpow_add₀ (by norm_num : (2:ℚ) ≠ 0)]
      calc |(m : ℚ)| * 2 ^ g < 2 ^ (p : ℤ) * 2 ^ g :=
        mul_lt_mul_of_pos_right hmq (h2pos g)
        _ = 2 ^ g * 2 ^ (p : ℤ) := by ring
    have hlog : Int.log 2 |q| < g + (p : ℤ) :=
      (Int.lt_zpow_iff_log_lt (by norm_num) habspos).1 (by exact_mod_cast hqlt)
    have hgle : max emin (Int.log 2 |q| - (p : ℤ) + 1) ≤ g := by
      have : Int.log 2 |q| - (p : ℤ) + 1 ≤ g := by omega
      exact max_le hg this
    set g2 := max emin (Int.log 2 |q| - (p : ℤ) + 1) with hg2
    set d := g - g2 with hd
    have hdnn : 0 ≤ d := by omega
    have hpow_d : (2 : ℚ) ^ d = (2 : ℚ) ^ d.toNat := by
      rw [← zpow_natCast]
      congr 1
      omega
    have hdiv : q / 2 ^ g2 = ((m * 2 ^ d.toNat : ℤ) : ℚ) := by
      rw [hq]
      rw [show g = g2 + d by omega, zpow_add₀ (by norm_num : (2:ℚ) ≠ 0)]
      push_cast
      rw [← hpow_d]
      rw [mul_comm ((2:ℚ) ^ g2) ((2:ℚ) ^ d), ← mul_assoc, mul_div_assoc,
        div_self (ne_of_gt (h2pos g2)), mul_one]
    rw [cast_float]
    rw [hdiv, rne_intCast]
    have hr : ((m * 2 ^ d.toNat : ℤ) : ℚ) * 2 ^ g2 = q := by
      push_cast
      rw [← hpow_d, hq, show g = g2 + d by omega,
        zpow_add₀ (by norm_num : (2:ℚ) ≠ 0)]
      ring
    rw [hr]
    have habs := abs_le.1 hmax
    have hc1 : ¬ (maxfin < q) := by linarith [habs.2]
    have hc2 : ¬ (q < -maxfin) := by linarith [habs.1]
    rw [if_neg hc1, if_neg hc2]

theorem int_repr_cast_exact {lo modl hi : ℤ} {x : NpVal}
    (h : int_repr lo hi x) (hbound : hi ≤ lo + modl - 1) :
    cast_int lo modl x = x := by
  obtain ⟨n, rfl, h1, h2⟩ := h
  exact cast_int_exact h1 (by omega)

theorem float_repr_cast_exact {p : ℕ} {emin : ℤ} {maxfin : ℚ} {x : NpVal}
    (h : float_repr p emin maxfin x) (hmaxpos : 0 ≤ maxfin) :
    cast_float p emin maxfin x = x := by
  cases x with
  | fin q =>
    obtain ⟨⟨m, g, hq, hm, hg⟩, hmax⟩ := h
    exact cast_float_exact m g hq hm hg hmax hmaxpos
  | inf => rfl
  | ninf => rfl
  | nan => rfl

theorem np_cast_exact (t : NpType) (x : NpVal) (h : np_repr t x) :
    np_cast t x = x := by
  cases t with
  | int8 => exact int_repr_cast_exact h (by norm_num)
  | uint8 => exact int_repr_cast_exact h (by norm_num)
  | int16 => exact int_repr_cast_exact h (by norm_num)
  | uint16 => exact int_repr_cast_exact h (by norm_num)
  | int32 => exact int_repr_cast_exact h (by norm_num)
  | uint32 => exact int_repr_cast_exact h (by norm_num)
  | int64 => exact int_repr_cast_exact h (by norm_num)
  | uint64 => exact int_repr_cast_exact h (by norm_num)
  | float16 => exact float_repr_cast_exact h (by norm_num)
  | float32 => exact float_repr_cast_exact h (by norm_num)
  | float64 => exact float_repr_cast_exact h (by norm_num)

theorem cast_float_repr {p : ℕ} {emin : ℤ} {maxfin : ℚ} (hp : 1 ≤ p)
    (x : NpVal) : float_repr p emin maxfin (cast_float p emin maxfin x) := by
  cases x with
  | inf => trivial
  | ninf => trivial
  | nan => trivial
  | fin q =>
    have h2pos : ∀ y : ℤ, (0 : ℚ) < 2 ^ y := fun y => zpow_pos (by norm_num) y
    rw [cast_float]
    set e := Int.log 2 |q| with he
    set g2 : ℤ := max emin (e - (p : ℤ) + 1) with hg2
    set M : ℤ := rne (q / 2 ^ g2) with hM
    have hMb : |M| ≤ 2 ^ p := by
      by_cases hq0 : q = 0
      · have hz : q / 2 ^ g2 = ((0 : ℤ) : ℚ) := by rw [hq0]; norm_num
        rw [hM, hz, rne_intCast]
        positivity
      · have habspos : (0 : ℚ) < |q| := abs_pos.2 hq0
        have hup : |q| < 2 ^ (e + 1) := Int.lt_zpow_succ_log_self (by norm_num) _
        have hexp : e + 1 ≤ (p : ℤ) + g2 := by omega
        have hdivb : |q / 2 ^ g2| < 2 ^ (p : ℤ) := by
          rw [abs_div, abs_of_pos (h2pos g2), div_lt_iff₀ (h2pos g2)]
        -- |q| < 2 ^ p * 2 ^ g2
          calc |q| < 2 ^ (e + 1) := hup
            _ ≤ 2 ^ ((p : ℤ) + g2) := by
                exact zpow_le_zpow_right₀ (by norm_num) hexp
            _ = 2 ^ (p : ℤ) * 2 ^ g2 := by
                rw [zpow_add₀ (by norm_num : (2:ℚ) ≠ 0)]
        have hle := abs_rne_le (q / 2 ^ g2)
        have hcast : ((|M| : ℤ) : ℚ) < ((2 ^ p : ℤ) : ℚ) + 1 := by
          rw [Int.cast_abs]
          have hpow : ((2 ^ p : ℤ) : ℚ) = 2 ^ (p : ℤ) := by
            push_cast [zpow_natCast]
            ring
          rw [hpow]
          calc |((M : ℤ) : ℚ)| ≤ |q / 2 ^ g2| + 1 / 2 := hle
            _ < 2 ^ (p : ℤ) + 1 / 2 := by linarith
            _ < 2 ^ (p : ℤ) + 1 := by linarith
        have : |M| < 2 ^ p + 1 := by exact_mod_cast hcast
        omega
    by_cases hc1 : maxfin < ((M : ℤ) : ℚ) * 2 ^ g2
    · rw [if_pos hc1]; trivial
    · rw [if_neg hc1]
      by_cases hc2 : ((M : ℤ) : ℚ) * 2 ^ g2 < -maxfin
      · rw [if_pos hc2]; trivial
      · rw [if_neg hc2]
        refine ⟨?_, by rw [abs_le]; exact ⟨by linarith, by linarith⟩⟩
        rcases lt_or_eq_of_le hMb with hlt | heq
        · exact ⟨M, g2, rfl, hlt, le_max_left _ _⟩
        · have hcases : M = 2 ^ p ∨ M = -(2 ^ p) := by
            rcases abs_cases M with ⟨h1, _⟩ | ⟨h1, _⟩
            · exact Or.inl (by omega)
            · exact Or.inr (by omega)
          have hpowsplit : ((2 ^ p : ℤ) : ℚ) * 2 ^ g2
              = ((2 ^ (p - 1) : ℤ) : ℚ) * 2 ^ (g2 + 1) := by
            push_cast
            rw [zpow_add₀ (by norm_num : (2:ℚ) ≠ 0)]
            conv_lhs => rw [show p = (p - 1) + 1 by omega, pow_succ]
            ring
          have hg2succ : emin ≤ g2 + 1 :=
            le_trans (le_max_left _ _) (by linarith)
          have habs1 : |(2 : ℤ) ^ (p - 1)| < 2 ^ p := by
            rw [abs_of_nonneg (by positivity)]
            calc (2:ℤ) ^ (p - 1) < 2 ^ ((p - 1) + 1) := by
                  rw [pow_succ]
                  have hd : (0:ℤ) < 2 ^ (p - 1) := by positivity
                  omega
              _ = 2 ^ p := by rw [show (p - 1) + 1 = p by omega]
          rcases hcases with hMe | hMe
          · exact ⟨2 ^ (p - 1), g2 + 1, by rw [hMe, hpowsplit], habs1, hg2succ⟩
          · refine ⟨-(2 ^ (p - 1)), g2 + 1, ?_, by rwa [abs_neg], hg2succ⟩
            rw [hMe]
            push_cast
            push_cast at hpowsplit
            linarith [hpowsplit]

theorem int_repr_mono {lo1 hi1 lo2 hi2 : ℤ} (hl : lo2 ≤ lo1) (hh : hi1 ≤ hi2)
    {x : NpVal} (h : int_repr lo1 hi1 x) : int_repr lo2 hi2 x := by
  obtain ⟨n, rfl, h1, h2⟩ := h
  exact ⟨n, rfl, by omega, by omega⟩

theorem int_repr_to_float {lo hi : ℤ} {p : ℕ} {emin : ℤ} {maxfin : ℚ}
    (h1 : -(2 ^ p) < lo) (h2 : hi < 2 ^ p) (h3 : emin ≤ 0)
    (h4 : ((2 ^ p - 1 : ℤ) : ℚ) ≤ maxfin) {x : NpVal}
    (h : int_repr lo hi x) : float_repr p emin maxfin x := by
  obtain ⟨n, rfl, hl, hh⟩ := h
  refine ⟨⟨n, 0, by simp, by rw [abs_lt]; omega, h3⟩, ?_⟩
  have hn : |n| ≤ 2 ^ p - 1 := by
    rw [abs_le]
    omega
  calc |((n : ℤ) : ℚ)| = ((|n| : ℤ) : ℚ) := by rw [Int.cast_abs]
    _ ≤ ((2 ^ p - 1 : ℤ) : ℚ) := by exact_mod_cast hn
    _ ≤ maxfin := h4

theorem float_repr_mono {p1 p2 : ℕ} {e1 e2 : ℤ} {M1 M2 : ℚ} (hp : p1 ≤ p2)
    (he : e2 ≤ e1) (hM : M1 ≤ M2) {x : NpVal}
    (h : float_repr p1 e1 M1 x) : float_repr p2 e2 M2 x := by
  cases x with
  | fin q =>
    obtain ⟨⟨m, g, hq, hm, hg⟩, hmax⟩ := h
    refine ⟨⟨m, g, hq, ?_, by omega⟩, le_trans hmax hM⟩
    calc |m| < 2 ^ p1 := hm
      _ ≤ 2 ^ p2 := pow_le_pow_right₀ (by norm_num) hp
  | inf => trivial
  | ninf => trivial
  | nan => trivial

theorem np_eq_val_eq {a b : NpVal} (h : np_eq_val a b = true) : a = b := by
  cases a <;> cases b <;> simp [np_eq_val] at h <;> simp [h]

theorem np_cast_repr_candidate (s : NpType) (hs : s ∈ down_candidates)
    (x : NpVal) : np_repr s (np_cast s x) := by
  fin_cases hs
  · exact int_repr_mono (by norm_num) (by norm_num)
      (cast_int_repr (by norm_num) (by norm_num) (by norm_num) x)
  · exact int_repr_mono (by norm_num) (by norm_num)
      (cast_int_repr (by norm_num) (by norm_num) (by norm_num) x)
  · exact int_repr_mono (by norm_num) (by norm_num)
      (cast_int_repr (by norm_num) (by norm_num) (by norm_num) x)
  · exact int_repr_mono (by norm_num) (by norm_num)
      (cast_int_repr (by norm_num) (by norm_num) (by norm_num) x)
  · exact cast_float_repr (by norm_num) x

theorem np_repr_promote_right (t s : NpType) (hs : s ∈ down_candidates)
    (z : NpVal) (h : np_repr s z) : np_repr (np_promote t s) z := by
  fin_cases hs <;> cases t <;>
    first
    | exact h
    | exact int_repr_mono (by norm_num) (by norm_num) h
    | exact int_repr_to_float (by norm_num) (by norm_num) (by norm_num)
        (by norm_num) h
    | exact float_repr_mono (by norm_num) (by norm_num) (by norm_num) h

theorem np_repr_promote_left (t s : NpType) (hs : s ∈ down_candidates)
    (hexc : ¬ ((t = .int64 ∨ t = .uint64) ∧ np_promote t s = .float64))
    (x : NpVal) (hx : np_repr t x) : np_repr (np_promote t s) x := by
  fin_cases hs
  · cases t with
    | int8 => exact hx
    | uint8 => exact int_repr_mono (by norm_num) (by norm_num) hx
    | int16 => exact hx
    | uint16 => exact int_repr_mono (by norm_num) (by norm_num) hx
    | int32 => exact hx
    | uint32 => exact int_repr_mono (by norm_num) (by norm_num) hx
    | int64 => exact hx
    | uint64 => exact absurd ⟨Or.inr rfl, rfl⟩ hexc
    | float16 => exact hx
    | float32 => exact hx
    | float64 => exact hx
  · cases t with
    | int8 => exact int_repr_mono (by norm_num) (by norm_num) hx
    | uint8 => exact hx
    | int16 => exact hx
    | uint16 => exact hx
    | int32 => exact hx
    | uint32 => exact hx
    | int64 => exact hx
    | uint64 => exact hx
    | float16 => exact hx
    | float32 => exact hx
    | float64 => exact hx
  · cases t with
    | int8 => exact int_repr_mono (by norm_num) (by norm_num) hx
    | uint8 => exact int_repr_mono (by norm_num) (by norm_num) hx
    | int16 => exact hx
    | uint16 => exact int_repr_mono (by norm_num) (by norm_num) hx
    | int32 => exact hx
    | uint32 => exact int_repr_mono (by norm_num) (by norm_num) hx
    | int64 => exact hx
    | uint64 => exact absurd ⟨Or.inr rfl, rfl⟩ hexc
    | float16 => exact float_repr_mono (by norm_num) (by norm_num) (by norm_num) hx
    | float32 => exact hx
    | float64 => exact hx
  · cases t with
    | int8 => exact int_repr_mono (by norm_num) (by norm_num) hx
    | uint8 => exact int_repr_mono (by norm_num) (by norm_num) hx
    | int16 => exact int_repr_mono (by norm_num) (by norm_num) hx
    | uint16 => exact hx
    | int32 => exact hx
    | uint32 => exact hx
    | int64 => exact hx
    | uint64 => exact hx
    | float16 => exact float_repr_mono (by norm_num) (by norm_num) (by norm_num) hx
    | float32 => exact hx
    | float64 => exact hx
  · cases t with
    | int8 => exact int_repr_to_float (by norm_num) (by norm_num) (by norm_num) (by norm_num) hx
    | uint8 => exact int_repr_to_float (by norm_num) (by norm_num) (by norm_num) (by norm_num) hx
    | int16 => exact int_repr_to_float (by norm_num) (by norm_num) (by norm_num) (by norm_num) hx
    | uint16 => exact int_repr_to_float (by norm_num) (by norm_num) (by norm_num) (by norm_num) hx
    | int32 => exact int_repr_to_float (by norm_num) (by norm_num) (by norm_num) (by norm_num) hx
    | uint32 => exact int_repr_to_float (by norm_num) (by norm_num) (by norm_num) (by norm_num) hx
    | int64 => exact absurd ⟨Or.inl rfl, rfl⟩ hexc
    | uint64 => exact absurd ⟨Or.inr rfl, rfl⟩ hexc
    | float16 => exact hx
    | float32 => exact hx
    | float64 => exact hx

theorem np_repr_candidate_bound (s : NpType) (hs : s ∈ down_candidates)
    (y : NpVal) (h : np_repr s y) :
    y = .inf ∨ y = .ninf ∨ y = .nan ∨ ∃ q : ℚ, y = .fin q ∧ |q| ≤ 65535 := by
  have hint : ∀ lo hi : ℤ, -65535 ≤ lo → hi ≤ 65535 → int_repr lo hi y →
      ∃ q : ℚ, y = .fin q ∧ |q| ≤ 65535 := by
    intro lo hi hlo hhi hrep
    obtain ⟨n, rfl, h1, h2⟩ := hrep
    refine ⟨(n : ℚ), rfl, ?_⟩
    have hn : |n| ≤ 65535 := by rw [abs_le]; omega
    calc |((n : ℤ) : ℚ)| = ((|n| : ℤ) : ℚ) := by rw [Int.cast_abs]
      _ ≤ ((65535 : ℤ) : ℚ) := by exact_mod_cast hn
      _ = 65535 := by norm_num
  fin_cases hs
  · exact .inr (.inr (.inr (hint _ _ (by norm_num) (by norm_num) h)))
  · exact .inr (.inr (.inr (hint _ _ (by norm_num) (by norm_num) h)))
  · exact .inr (.inr (.inr (hint _ _ (by norm_num) (by norm_num) h)))
  · exact .inr (.inr (.inr (hint _ _ (by norm_num) (by norm_num) h)))
  · cases y with
    | fin q => exact .inr (.inr (.inr ⟨q, rfl, le_trans h.2 (by norm_num)⟩))
    | inf => exact .inl rfl
    | ninf => exact .inr (.inl rfl)
    | nan => exact .inr (.inr (.inl rfl))

theorem cast_f64_int_small {n : ℤ} (hn : |n| ≤ 2 ^ 53) :
    cast_float 53 (-1074) ((2 ^ 53 - 1) * 2 ^ 971) (.fin ((n : ℚ)))
      = .fin ((n : ℚ)) := by
  rcases lt_or_eq_of_le hn with hlt | heq
  · refine cast_float_exact n 0 (by simp) hlt (by norm_num) ?_ (by positivity)
    calc |((n : ℤ) : ℚ)| = ((|n| : ℤ) : ℚ) := by rw [Int.cast_abs]
      _ ≤ ((2 ^ 53 : ℤ) : ℚ) := by exact_mod_cast hn
      _ ≤ (2 ^ 53 - 1) * 2 ^ 971 := by norm_num
  · have h2 : n = 2 ^ 53 ∨ n = -(2 ^ 53) := ((abs_eq (by positivity)).1 heq)
    rcases h2 with rfl | rfl
    · refine cast_float_exact (2 ^ 52) 1 ?_ (by norm_num) (by norm_num) ?_
        (by positivity)
      · push_cast
        norm_num
      · push_cast
        norm_num
    · refine cast_float_exact (-(2 ^ 52)) 1 ?_ (by rw [abs_neg]; norm_num) (by norm_num) ?_
        (by positivity)
      · push_cast
        norm_num
      · push_cast
        norm_num

theorem cast_float64_big {q : ℚ} (h1 : (2:ℚ) ^ (53:ℤ) < |q|)
    (h2 : |q| ≤ (2:ℚ) ^ (64:ℤ)) :
    ∃ r : ℚ, cast_float 53 (-1074) ((2 ^ 53 - 1) * 2 ^ 971) (.fin q) = .fin r ∧
      (2:ℚ) ^ (52:ℤ) < |r| := by
  have h2pos : ∀ y : ℤ, (0 : ℚ) < 2 ^ y := fun y => zpow_pos (by norm_num) y
  have h2ne : (2:ℚ) ≠ 0 := by norm_num
  have habspos : (0:ℚ) < |q| := lt_trans (h2pos _) h1
  have h252 : (1:ℚ) < 2 ^ (52:ℤ) := by
    rw [show ((52:ℤ)) = ((52:ℕ):ℤ) from rfl, zpow_natCast]
    norm_num
  rw [cast_float]
  set e := Int.log 2 |q| with he
  have he53 : (53:ℤ) ≤ e :=
    (Int.zpow_le_iff_le_log (by norm_num) habspos).1 (le_of_lt h1)
  have he65 : e < 65 := by
    refine (Int.lt_zpow_iff_log_lt (by norm_num) habspos).1 (lt_of_le_of_lt h2 ?_)
    exact zpow_lt_zpow_right₀ (by norm_num) (by norm_num)
  set g2 : ℤ := max (-1074 : ℤ) (e - ((53:ℕ) : ℤ) + 1) with hg2
  have hg2e : g2 = e - 52 := by
    rw [hg2, max_eq_right (by omega : (-1074:ℤ) ≤ e - ((53:ℕ) : ℤ) + 1)]
    omega
  set M : ℤ := rne (q / 2 ^ g2) with hM
  have hqg : |q / 2 ^ g2| = |q| / 2 ^ g2 := by
    rw [abs_div, abs_of_pos (h2pos g2)]
  have hlow : (2:ℚ) ^ (52:ℤ) ≤ |q / 2 ^ g2| := by
    rw [hqg, le_div_iff₀ (h2pos g2)]
    calc (2:ℚ) ^ (52:ℤ) * 2 ^ g2 = 2 ^ (52 + g2) := (zpow_add₀ h2ne _ _).symm
      _ ≤ 2 ^ e := zpow_le_zpow_right₀ (by norm_num) (by omega)
      _ ≤ |q| := Int.zpow_log_le_self (by norm_num) habspos
  have hg2le : (2:ℚ) ^ g2 ≤ 2 ^ (12:ℤ) :=
    zpow_le_zpow_right₀ (by norm_num) (by omega)
  have hg2ge : (2:ℚ) ^ (1:ℤ) ≤ 2 ^ g2 :=
    zpow_le_zpow_right₀ (by norm_num) (by omega)
  rw [zpow_one] at hg2ge
  have hMle : |((M : ℤ) : ℚ)| ≤ |q / 2 ^ g2| + 1/2 := abs_rne_le _
  have hMge : |q / 2 ^ g2| - 1/2 ≤ |((M : ℤ) : ℚ)| :=
    abs_rne_ge _ (le_trans (le_of_lt h252) hlow)
  set R : ℚ := ((M : ℤ) : ℚ) * 2 ^ g2 with hR
  have hRabs : |R| = |((M : ℤ) : ℚ)| * 2 ^ g2 := by
    rw [hR, abs_mul, abs_of_pos (h2pos g2)]
  have hRlow : (2:ℚ) ^ (52:ℤ) < |R| := by
    rw [hRabs]
    calc (2:ℚ) ^ (52:ℤ) < (2 ^ (52:ℤ) - 1/2) * 2 := by linarith
      _ ≤ (|q / 2 ^ g2| - 1/2) * 2 := by linarith
      _ ≤ (|q / 2 ^ g2| - 1/2) * 2 ^ g2 :=
          mul_le_mul_of_nonneg_left hg2ge (by linarith)
      _ ≤ |((M : ℤ) : ℚ)| * 2 ^ g2 :=
          mul_le_mul_of_nonneg_right hMge (le_of_lt (h2pos g2))
  have hmaxle : (2:ℚ) ^ (77:ℤ) ≤ (2 ^ 53 - 1) * 2 ^ 971 := by
    rw [show ((77:ℤ)) = ((77:ℕ):ℤ) from rfl, zpow_natCast]
    norm_num
  have hRup : |R| ≤ (2:ℚ) ^ (77:ℤ) := by
    rw [hRabs]
    calc |((M : ℤ) : ℚ)| * 2 ^ g2 ≤ (|q / 2 ^ g2| + 1/2) * 2 ^ g2 :=
        mul_le_mul_of_nonneg_right hMle (le_of_lt (h2pos g2))
      _ = |q| + 2 ^ g2 / 2 := by
        rw [hqg, add_mul, div_mul_cancel₀ _ (ne_of_gt (h2pos g2))]
        ring
      _ ≤ 2 ^ (64:ℤ) + 2 ^ (12:ℤ) / 2 := by linarith
      _ ≤ (2:ℚ) ^ (77:ℤ) := by
        rw [show ((64:ℤ)) = ((64:ℕ):ℤ) from rfl, zpow_natCast,
          show ((12:ℤ)) = ((12:ℕ):ℤ) from rfl, zpow_natCast,
          show ((77:ℤ)) = ((77:ℕ):ℤ) from rfl, zpow_natCast]
        norm_num
  refine ⟨R, ?_, hRlow⟩
  have hc1 : ¬ ((2 ^ 53 - 1) * 2 ^ 971 < R) :=
    not_lt.2 (le_trans (le_abs_self R) (le_trans hRup hmaxle))
  have hc2 : ¬ (R < -((2 ^ 53 - 1) * 2 ^ 971)) := by
    refine not_lt.2 ?_
    rw [neg_le]
    exact le_trans (neg_le_abs R) (le_trans hRup hmaxle)
  rw [if_neg hc1, if_neg hc2]

theorem cast_back_big {n : ℤ} (hbound : |n| ≤ 2 ^ 64) {y : NpVal}
    (hy : y = .inf ∨ y = .ninf ∨ y = .nan ∨ ∃ q : ℚ, y = .fin q ∧ |q| ≤ 65535)
    (h : np_eq_val (np_cast .float64 (.fin ((n : ℚ)))) y = true) :
    y = .fin ((n : ℚ)) := by
  by_cases hsmall : |n| ≤ 2 ^ 53
  · have hcast : np_cast .float64 (.fin ((n : ℚ))) = .fin ((n : ℚ)) :=
      cast_f64_int_small hsmall
    rw [hcast] at h
    exact (np_eq_val_eq h).symm
  · push_neg at hsmall
    have habs : (2:ℚ) ^ (53:ℤ) < |((n : ℤ) : ℚ)| := by
      rw [show ((53:ℤ)) = ((53:ℕ):ℤ) from rfl, zpow_natCast, ← Int.cast_abs]
      exact_mod_cast hsmall
    have habs2 : |((n : ℤ) : ℚ)| ≤ (2:ℚ) ^ (64:ℤ) := by
      rw [show ((64:ℤ)) = ((64:ℕ):ℤ) from rfl, zpow_natCast, ← Int.cast_abs]
      exact_mod_cast hbound
    obtain ⟨r, hr, hrbig⟩ := cast_float64_big habs habs2
    have hcast2 : np_cast .float64 (.fin ((n : ℚ))) = .fin r := hr
    rw [hcast2] at h
    have hyr : NpVal.fin r = y := np_eq_val_eq h
    rcases hy with rfl | rfl | rfl | ⟨qy, rfl, hqy⟩
    · exact absurd hyr (by simp)
    · exact absurd hyr (by simp)
    · exact absurd hyr (by simp)
    · exfalso
      have hreq : r = qy := NpVal.fin.inj hyr
      have h52 : (65535:ℚ) < 2 ^ (52:ℤ) := by
        rw [show ((52:ℤ)) = ((52:ℕ):ℤ) from rfl, zpow_natCast]
        norm_num
      rw [hreq] at hrbig
      linarith

theorem cast_back_elem (t s : NpType) (hs : s ∈ down_candidates) (x : NpVal)
    (hx : np_repr t x)
    (h : np_eq_val (np_cast (np_promote t s) x)
        (np_cast (np_promote t s) (np_cast s x)) = true) :
    np_cast t (np_cast s x) = x := by
  have hy : np_repr s (np_cast s x) := np_cast_repr_candidate s hs x
  have hyc : np_cast (np_promote t s) (np_cast s x) = np_cast s x :=
    np_cast_exact _ _ (np_repr_promote_right t s hs _ hy)
  rw [hyc] at h
  by_cases hexc : (t = .int64 ∨ t = .uint64) ∧ np_promote t s = .float64
  · obtain ⟨ht64, hC⟩ := hexc
    rw [hC] at h
    have hybound := np_repr_candidate_bound s hs _ hy
    have hxn : ∃ n : ℤ, x = .fin ((n : ℚ)) ∧ |n| ≤ 2 ^ 64 := by
      rcases ht64 with rfl | rfl
      · obtain ⟨n, rfl, h1, h2⟩ := hx
        refine ⟨n, rfl, ?_⟩
        have hmono : (2:ℤ) ^ 63 ≤ 2 ^ 64 := by norm_num
        rw [abs_le]
        constructor <;> linarith
      · obtain ⟨n, rfl, h1, h2⟩ := hx
        refine ⟨n, rfl, ?_⟩
        have hpos : (0:ℤ) ≤ 2 ^ 64 := by positivity
        rw [abs_le]
        constructor <;> linarith
    obtain ⟨n, rfl, hn⟩ := hxn
    have hcs := cast_back_big hn hybound h
    rw [hcs]
    exact np_cast_exact t _ hx
  · have hxc : np_cast (np_promote t s) x = x :=
      np_cast_exact _ _ (np_repr_promote_left t s hs hexc x hx)
    rw [hxc] at h
    have hxy := np_eq_val_eq h
    rw [← hxy]
    exact np_cast_exact t x hx

/-- C6: for every well-formed input array (each value representable in
its dtype), tools.down_type followed by casting the result back to the
original element type reproduces the original values exactly, and when
no candidate passes the equality test down_type returns the array
unchanged, so it always succeeds with at least the original type. -/
theorem claim_C6 (a : NpArray) (h : a.wf) :
    (down_type a).astype a.dtype = a ∧
    ((∀ s ∈ down_candidates, np_all_eq_cast a.dtype s a.data = false) →
      down_type a = a) := by
  have hdt : ∀ x ∈ a.data, np_cast a.dtype x = x :=
    fun x hx => np_cast_exact _ _ (h x hx)
  constructor
  · rw [down_type]
    rcases hfind : down_candidates.find? (fun s => np_all_eq_cast a.dtype s a.data)
      with _ | s
    · show a.astype a.dtype = a
      rw [NpArray.astype]
      have hid : a.data.map (np_cast a.dtype) = a.data :=
        calc a.data.map (np_cast a.dtype) = a.data.map id := List.map_congr_left hdt
          _ = a.data := List.map_id _
      rw [hid]
    · have hmem : s ∈ down_candidates := List.mem_of_find?_eq_some hfind
      have hguard : np_all_eq_cast a.dtype s a.data = true := by
        have hg := List.find?_some hfind
        exact hg
      rw [np_all_eq_cast] at hguard
      have helem : ∀ x ∈ a.data, np_cast a.dtype (np_cast s x) = x := by
        intro x hx
        exact cast_back_elem a.dtype s hmem x (h x hx)
          (List.all_eq_true.1 hguard x hx)
      show (a.astype s).astype a.dtype = a
      calc (a.astype s).astype a.dtype
          = { dtype := a.dtype,
              data := (a.data.map (np_cast s)).map (np_cast a.dtype) } := rfl
        _ = { dtype := a.dtype, data := a.data } := by
            rw [List.map_map]
            congr 1
            calc a.data.map (np_cast a.dtype ∘ np_cast s)
                = a.data.map id := List.map_congr_left helem
              _ = a.data := List.map_id _
        _ = a := rfl
  · intro hnone
    rw [down_type]
    have hfind : down_candidates.find? (fun s => np_all_eq_cast a.dtype s a.data)
        = none := by
      rw [List.find?_eq_none]
      intro s hsmem
      simp [hnone s hsmem]
    rw [hfind]

theorem claim_C6_witness :
    (NpArray.mk .int32 [.fin 5]).wf ∧
    ((down_type (NpArray.mk .int32 [.fin 5])).astype .int32
        = NpArray.mk .int32 [.fin 5] ∧
      ((∀ s ∈ down_candidates, np_all_eq_cast .int32 s [.fin 5] = false) →
        down_type (NpArray.mk .int32 [.fin 5]) = NpArray.mk .int32 [.fin 5])) := by
  have hwf : (NpArray.mk .int32 [.fin 5]).wf := by
    intro x hx
    simp only [List.mem_singleton] at hx
    subst hx
    exact ⟨5, by norm_num, by norm_num, by norm_num⟩
  exact ⟨hwf, claim_C6 _ hwf⟩
